import Mathlib

set_option maxRecDepth 40000

/-!
Verification of the EAM potential I/O module (matscipy, eam/io.py).

The module parses, mixes and serializes tabulated interatomic potentials in
the LAMMPS eam and eam/alloy text formats.  We embed the four operations that
the claims concern: read_eam, read_eam_alloy, write_eam_alloy and
mix_eam_alloy.

Modelling conventions:
- A text file is a list of lines; a line is a list of whitespace-separated
  tokens.  A numeric token carries the exact rational value its digits denote;
  a non-numeric token (species name, crystal label, comment word) is an opaque
  symbol identified by a natural number.  Real numbers are modelled as
  rationals throughout; the printf-style formatting that the writer performs
  is modelled by explicit decimal-rounding functions (fmtE, fmtF below).
- Python exceptions are modelled by an error type whose constructors mirror
  the exception classes the interpreter and numpy actually raise (IndexError,
  ValueError, ZeroDivisionError).  The spec postulates a richer taxonomy
  (MalformedHeaderError, TruncatedDataError, EmptyInputError); those
  constructors exist in the model so claims about them can be stated, but the
  code never produces them.
- np.empty returns uninitialized storage.  Uninitialized array contents are
  modelled by an explicit parameter (a function giving the junk value at each
  index); anything the code never assigns keeps that junk value.
- np.fromfile with a whitespace separator parses the requested number of
  numeric tokens, consuming the separator after each element (including the
  last), and stops early at a non-numeric token or end of file.  readline
  consumes everything up to and including the next newline.  File positions
  are modelled as the list of not-yet-consumed lines, the head line possibly
  partially consumed.
- scipy.interpolate.InterpolatedUnivariateSpline is third-party code, not part
  of this repository; following the design note that resampling should be an
  injected capability, the mixer takes the resampler as an explicit function
  argument (from source grid, source values and destination grid to
  destination values).  The y argument the source passes to the spline is a
  two-dimensional slice rep[idx, :]; the f2py wrapper accepts it, consuming
  the leading Nr values of the flattened slice, i.e. row rep[idx, 0, :].
-/

/-- A token of a whitespace-separated text file: a numeral with the rational
value its digits denote, or an opaque non-numeric word. -/
inductive Tok where
  | num (q : ℚ)
  | sym (id : ℕ)
deriving DecidableEq

/-- A line of a text file, as its whitespace-separated tokens. -/
abbrev Line := List Tok

/-- A text file, as a list of lines. -/
abbrev TextFile := List Line

/-- Errors.  The first three constructors are the Python exception classes the
code in eam/io.py actually raises; the last three are the error kinds named by
the specification, which the code never produces. -/
inductive PyErr where
  | indexError
  | valueError
  | zeroDivisionError
  | malformedHeaderError
  | truncatedDataError
  | emptyInputError
deriving DecidableEq

/-- Python list indexing xs[i]: negative indices count from the end, anything
out of range raises IndexError. -/
def pyIndex {α : Type} (xs : List α) (i : ℤ) : Except PyErr α :=
  let j : ℤ := if i < 0 then i + xs.length else i
  if 0 ≤ j then
    match xs[j.toNat]? with
    | some v => .ok v
    | none => .error .indexError
  else .error .indexError

/-- Python float(tok): the value of a numeral, ValueError on a word. -/
def floatOfTok : Tok → Except PyErr ℚ
  | .num q => .ok q
  | .sym _ => .error .valueError

/-- Python int(tok): the value of an integral numeral, ValueError on a numeral
with a fractional part or on a word. -/
def intOfTok : Tok → Except PyErr ℤ
  | .num q => if q.den = 1 then .ok q.num else .error .valueError
  | .sym _ => .error .valueError

/-- Python int() applied to a float: truncation toward zero. -/
def pyInt (q : ℚ) : ℤ :=
  if q < 0 then -⌊-q⌋ else ⌊q⌋

/-- Ten to an integer power, as a rational. -/
def tenPow (z : ℤ) : ℚ := (10 : ℚ) ^ z

/-- Helper of log10: peel one decimal digit per unit of fuel. -/
def log10Aux : ℕ → ℕ → ℕ
  | 0, _ => 0
  | fuel + 1, n => if n < 10 then 0 else log10Aux fuel (n / 10) + 1

/-- Floor base-ten logarithm on naturals (0 at 0), by structural fuel
recursion: the input itself bounds the iteration count. -/
def log10 (n : ℕ) : ℕ := log10Aux n n

/-- First approximation of the decimal exponent of x (floor of log10 of the
absolute value), off by at most one. -/
def decExpGuess (x : ℚ) : ℤ :=
  (log10 x.num.natAbs : ℤ) - (log10 x.den : ℤ)

/-- Decimal exponent of a nonzero rational: the unique e with
10 pow e being at most the absolute value, which is below 10 pow (e+1). -/
def decExp (x : ℚ) : ℤ :=
  let e := decExpGuess x
  if tenPow (e + 1) ≤ |x| then e + 1
  else if |x| < tenPow e then e - 1
  else e

/-- The value printed by the C format %.de (scientific notation with d digits
after the decimal point, hence d+1 significant digits): the input rounded to
d decimal digits after the leading digit.  The writer uses d = 16 for table
values and d = 6 (plain %e) for the grid spacings and the cutoff. -/
def fmtE (d : ℕ) (x : ℚ) : ℚ :=
  if x = 0 then 0
  else (round (x * tenPow ((d : ℤ) - decExp x)) : ℚ) * tenPow (decExp x - (d : ℤ))

/-- The value printed by the C format %.df (fixed notation, d digits after the
decimal point); %f is d = 6. -/
def fmtF (d : ℕ) (x : ℚ) : ℚ :=
  (round (x * tenPow (d : ℤ)) : ℚ) * tenPow (-(d : ℤ))

/-- Python slice index resolution for xs[a:b]. -/
def pySliceIdx (len : ℕ) (i : ℤ) : ℕ :=
  if i < 0 then (i + len).toNat else min i.toNat len

/-- Python slicing xs[a:b]: never raises, clamps to the available range. -/
def pySlice {α : Type} (xs : List α) (a b : ℤ) : List α :=
  (xs.take (pySliceIdx xs.length b)).drop (pySliceIdx xs.length a)

/-- One row of np.loadtxt: every token parsed as a float. -/
def loadtxtRow (l : Line) : Except PyErr (List ℚ) :=
  l.mapM floatOfTok

/-- np.loadtxt on the remaining lines, flattened: blank lines are skipped,
every token must be numeric and all rows must have the same width, else
ValueError; the values are returned row-major. -/
def loadtxt (lines : TextFile) : Except PyErr (List ℚ) := do
  let rows ← (lines.filter (fun l => !l.isEmpty)).mapM loadtxtRow
  match rows with
  | [] => .ok []
  | r :: rs =>
      if rs.all (fun x => x.length = r.length) then .ok ((r :: rs).flatten)
      else .error .valueError

/-- Result of read_eam: the comment line, the scalar parameters and the three
flat tables. -/
structure EamTables where
  source : Line
  atnumber : ℤ
  atmass : ℚ
  crystallatt : ℚ
  crystal : Tok
  Nrho : ℤ
  Nr : ℤ
  drho : ℚ
  dr : ℚ
  cutoff : ℚ
  F : List ℚ
  f : List ℚ
  rep : List ℚ

/-- read_eam: parse a single-species eam file.  Line 0 is the comment; line 1
carries atomic number, mass, lattice constant and crystal label; line 2
carries Nrho, drho, Nr, dr, cutoff; the body is read with np.loadtxt and
sliced into F (Nrho values), f (Nr values) and rep (Nr values) - the slices
silently truncate when the body is short and silently ignore surplus data. -/
def readEam (file : TextFile) : Except PyErr EamTables := do
  let l0 ← pyIndex file 0
  let l1 ← pyIndex file 1
  let atnumber ← intOfTok (← pyIndex l1 0)
  let atmass ← floatOfTok (← pyIndex l1 1)
  let crystallatt ← floatOfTok (← pyIndex l1 2)
  let crystal ← pyIndex l1 3
  let l2 ← pyIndex file 2
  let Nrho ← intOfTok (← pyIndex l2 0)
  let Nr ← intOfTok (← pyIndex l2 2)
  let drho ← floatOfTok (← pyIndex l2 1)
  let dr ← floatOfTok (← pyIndex l2 3)
  let cutoff ← floatOfTok (← pyIndex l2 4)
  let data ← loadtxt (file.drop 3)
  .ok { source := l0, atnumber := atnumber, atmass := atmass,
        crystallatt := crystallatt, crystal := crystal,
        Nrho := Nrho, Nr := Nr, drho := drho, dr := dr, cutoff := cutoff,
        F := pySlice data 0 Nrho,
        f := pySlice data Nrho (Nrho + Nr),
        rep := pySlice data (Nrho + Nr) (2 * Nr + Nrho) }

/-- Drop leading whitespace of a file position: skip exhausted lines.  This is
what fscanf-style separator skipping does between tokens. -/
def normPos : TextFile → TextFile
  | [] => []
  | [] :: rest => normPos rest
  | l :: rest => l :: rest

/-- np.fromfile with a whitespace separator and an explicit count, at a
position whose leading whitespace has been skipped: parse up to n numeric
tokens, consuming the separator after each element, and stop early at a
non-numeric token or end of file.  Returns the values and the new position. -/
def fromfileN : ℕ → TextFile → List ℚ × TextFile
  | 0, pos => ([], pos)
  | n + 1, pos =>
    match pos with
    | (Tok.num q :: lrest) :: rest =>
        let r := fromfileN n (normPos (lrest :: rest))
        (q :: r.1, r.2)
    | _ => ([], pos)

/-- Total number of tokens left at a position. -/
def tokenCount (pos : TextFile) : ℕ :=
  (pos.map List.length).sum

/-- np.fromfile with count = -1: read numeric tokens until a non-numeric token
or end of file. -/
def fromfileAll (pos : TextFile) : List ℚ × TextFile :=
  fromfileN (tokenCount (normPos pos)) (normPos pos)

/-- The data-reading loop of read_eam_alloy: for each of the k species, one
readline (the species header line) followed by fromfile of cnt values. -/
def dataLoop (cnt : ℕ) : ℕ → TextFile → List ℚ × TextFile
  | 0, pos => ([], pos)
  | k + 1, pos =>
      let r1 := fromfileN cnt (normPos pos.tail)
      let r2 := dataLoop cnt k r1.2
      (r1.1 ++ r2.1, r2.2)

/-- The plain data extracted by read_eam_alloy before the tables are
assembled: the three comment lines, the species tokens, the per-species
header values, the grid parameters and the flat data stream. -/
structure AlloyCore where
  src0 : Line
  src1 : Line
  src2 : Line
  atoms : List Tok
  atnumber : List ℤ
  atmass : List ℚ
  crystallatt : List ℚ
  crystal : List Tok
  Nrho : ℕ
  Nr : ℕ
  drho : ℚ
  dr : ℚ
  cutoff : ℚ
  data : List ℚ

/-- One step of the species-header loop of read_eam_alloy: locate row i by
the stride formula row = int(5 + i*((Nr+Nrho)/l + 1)), l being the token
count of line 6, and parse atomic number, mass, lattice constant and crystal
label from it. -/
def speciesRow (file : TextFile) (NrhoZ NrZ : ℤ) (i : ℕ) :
    Except PyErr (ℤ × ℚ × ℚ × Tok) := do
  let l6 ← pyIndex file 6
  if l6.length = 0 then throw .zeroDivisionError
  let row := pyInt (5 + (i : ℚ) * (((NrZ : ℚ) + (NrhoZ : ℚ)) / (l6.length : ℚ) + 1))
  let hrow ← pyIndex file row
  let a ← intOfTok (← pyIndex hrow 0)
  let m ← floatOfTok (← pyIndex hrow 1)
  let c ← floatOfTok (← pyIndex hrow 2)
  let cr ← pyIndex hrow 3
  pure (a, m, c, cr)

/-- Parsing phase of read_eam_alloy.  Lines 0-2 are comments; line 3 lists the
species (first token ignored); line 4 carries Nrho, drho, Nr, dr, cutoff.
The species header rows are then parsed, and the data stream is re-read from
line 5: per species one readline plus fromfile of Nrho+Nr values, then
fromfile of everything left.  The final check models the numpy broadcast
ValueError raised when the stream is too short for the slice assignments
that follow. -/
def readEamAlloyCore (file : TextFile) : Except PyErr AlloyCore := do
  let l0 ← pyIndex file 0
  let l1 ← pyIndex file 1
  let l2 ← pyIndex file 2
  let l3 ← pyIndex file 3
  let atoms := l3.drop 1
  let K := atoms.length
  let l4 ← pyIndex file 4
  let NrhoZ ← intOfTok (← pyIndex l4 0)
  let NrZ ← intOfTok (← pyIndex l4 2)
  let drho ← floatOfTok (← pyIndex l4 1)
  let dr ← floatOfTok (← pyIndex l4 3)
  let cutoff ← floatOfTok (← pyIndex l4 4)
  let meta ← (List.range K).mapM (speciesRow file NrhoZ NrZ)
  if NrhoZ < 0 ∨ NrZ < 0 then throw .valueError
  let Nrho := NrhoZ.toNat
  let Nr := NrZ.toNat
  let r := dataLoop (Nrho + Nr) K (file.drop 5)
  let data := r.1 ++ (fromfileAll r.2).1
  if data.length < K * (Nrho + Nr) + (K * (K + 1) / 2) * Nr then throw .valueError
  .ok { src0 := l0, src1 := l1, src2 := l2, atoms := atoms,
        atnumber := meta.map (fun x => x.1),
        atmass := meta.map (fun x => x.2.1),
        crystallatt := meta.map (fun x => x.2.2.1),
        crystal := meta.map (fun x => x.2.2.2),
        Nrho := Nrho, Nr := Nr, drho := drho, dr := dr, cutoff := cutoff,
        data := data }

/-- Result of read_eam_alloy.  The pair table is a total function on index
pairs; entries the code never assigns (the whole upper triangle, and anything
outside the species range) keep the uninitialized storage contents. -/
structure AlloyTables where
  src0 : Line
  src1 : Line
  src2 : Line
  atoms : List Tok
  atnumber : List ℤ
  atmass : List ℚ
  crystallatt : List ℚ
  crystal : List Tok
  Nrho : ℕ
  Nr : ℕ
  drho : ℚ
  dr : ℚ
  cutoff : ℚ
  F : List (List ℚ)
  f : List (List ℚ)
  rep : ℕ → ℕ → List ℚ

/-- Assembly phase of read_eam_alloy: slice the flat stream into the
embedding rows, the density rows and the lower triangle (including the
diagonal) of the pair table, in the on-disk interaction order; the upper
triangle of the np.empty pair array is never assigned and keeps the junk
given by init. -/
def assembleAlloy (init : ℕ → ℕ → ℕ → ℚ) (c : AlloyCore) : AlloyTables :=
  let K := c.atoms.length
  let B := c.Nrho + c.Nr
  { src0 := c.src0, src1 := c.src1, src2 := c.src2, atoms := c.atoms,
    atnumber := c.atnumber, atmass := c.atmass,
    crystallatt := c.crystallatt, crystal := c.crystal,
    Nrho := c.Nrho, Nr := c.Nr, drho := c.drho, dr := c.dr, cutoff := c.cutoff,
    F := (List.range K).map (fun i => (c.data.drop (i * B)).take c.Nrho),
    f := (List.range K).map (fun i => (c.data.drop (c.Nrho + i * B)).take c.Nr),
    rep := fun i j =>
      if i < K ∧ j ≤ i then
        (c.data.drop (K * B + (i * (i + 1) / 2 + j) * c.Nr)).take c.Nr
      else (List.range c.Nr).map (init i j) }

/-- read_eam_alloy: parse a multi-species eam/alloy file.  init gives the
contents of the uninitialized np.empty storage backing the pair table. -/
def readEamAlloy (init : ℕ → ℕ → ℕ → ℚ) (file : TextFile) : Except PyErr AlloyTables :=
  (readEamAlloyCore file).map (assembleAlloy init)

/-- The header fields write_eam_alloy unpacks from its parameters tuple. -/
structure AlloyHeader where
  atoms : List Tok
  atnumber : List ℤ
  atmass : List ℚ
  crystallatt : List ℚ
  crystal : List Tok
  Nrho : ℕ
  Nr : ℕ
  drho : ℚ
  dr : ℚ
  cutoff : ℚ

/-- One value per line, as the writer emits table values. -/
def vLines (vs : List ℚ) : TextFile :=
  vs.map (fun v => [Tok.num v])

/-- The pair-table values in the order the writer emits them: for each row i,
the columns j below the diagonal in increasing order, then the diagonal. -/
def triVals (rep : List (List (List ℚ))) : List ℚ :=
  ((List.range rep.length).map (fun i =>
      ((List.range (i + 1)).map (fun j => (rep.getD i []).getD j [])).flatten)).flatten

/-- The fixed banner line the writer puts first. -/
def bannerLine : Line :=
  [Tok.sym 900, Tok.sym 901, Tok.sym 902, Tok.sym 903, Tok.sym 904, Tok.sym 905, Tok.sym 906]

/-- The per-species header line the writer emits: atomic number with %i, mass
and lattice constant with %f, then the crystal label. -/
def hdrLine (h : AlloyHeader) (i : ℕ) : Line :=
  [Tok.num ((h.atnumber.getD i 0 : ℤ) : ℚ),
   Tok.num (fmtF 6 (h.atmass.getD i 0)),
   Tok.num (fmtF 6 (h.crystallatt.getD i 0)),
   h.crystal.getD i (Tok.sym 0)]

/-- Line 4 of the written file: Nrho and Nr with %i, drho, dr and cutoff with
%e (six digits after the decimal point). -/
def gridLine (h : AlloyHeader) : Line :=
  [Tok.num (h.Nrho : ℚ), Tok.num (fmtE 6 h.drho),
   Tok.num (h.Nr : ℚ), Tok.num (fmtE 6 h.dr), Tok.num (fmtE 6 h.cutoff)]

/-- The per-species block the writer emits: header line, then the embedding
row and the density row at %.16e, one value per line. -/
def speciesBlock (h : AlloyHeader) (F f : List (List ℚ)) (i : ℕ) : TextFile :=
  hdrLine h i :: (vLines ((F.getD i []).map (fmtE 16)) ++ vLines ((f.getD i []).map (fmtE 16)))

/-- write_eam_alloy: serialize a potential in the eam/alloy layout.  Three
comment lines (the banner, a hash followed by the source tokens, a lone
hash), the species-count line, the grid line, the per-species blocks and the
lower triangle of the pair table at %.16e, one value per line. -/
def writeEamAlloy (source : List Tok) (h : AlloyHeader)
    (F f : List (List ℚ)) (rep : List (List (List ℚ))) : TextFile :=
  [bannerLine, Tok.sym 907 :: source, [Tok.sym 907],
   Tok.num (h.atoms.length : ℚ) :: h.atoms, gridLine h]
  ++ ((List.range h.atoms.length).map (speciesBlock h F f)).flatten
  ++ vLines ((triVals rep).map (fmtE 16))

/-- np.sqrt, modelled on the rationals (exact on perfect squares, which is
what the mixing theorems use; its values elsewhere play no role in any
claim). -/
def sqrtQ (q : ℚ) : ℚ :=
  (Nat.sqrt q.num.natAbs : ℚ) / (Nat.sqrt q.den : ℚ)

/-- np.linspace(a, b, n): n evenly spaced points from a to b inclusive. -/
def linspaceQ (a b : ℚ) (n : ℕ) : List ℚ :=
  if n ≤ 1 then List.replicate n a
  else (List.range n).map (fun (k : ℕ) => a + (b - a) * (k : ℚ) / ((n : ℚ) - 1))

/-- np.argmin on a list: index of the first occurrence of the minimum;
ValueError on an empty sequence, as numpy raises. -/
def argminAux : List ℚ → ℕ → ℕ → ℚ → ℕ
  | [], _, best, _ => best
  | x :: xs, i, best, bv =>
      if x < bv then argminAux xs (i + 1) i x else argminAux xs (i + 1) best bv

/-- np.argmin with the empty-sequence ValueError. -/
def argminQ : List ℚ → Except PyErr ℕ
  | [] => .error .valueError
  | x :: xs => .ok (argminAux xs 1 0 x)

/-- The fixed index table rep_list = [0,2,5,9,14] through which mix_eam_alloy
locates each species own pair function: the flat lower-triangle positions of
the first five diagonal entries. -/
def repListTable : List ℕ := [0, 2, 5, 9, 14]

/-- A resampler: from a source grid and source values to values on a
destination grid.  Models the injected spline capability
(scipy.interpolate.InterpolatedUnivariateSpline evaluated on the new grid). -/
abbrev Resampler := List ℚ → List ℚ → List ℚ → List ℚ

/-- Result of mix_eam_alloy.  F, f and rep are total functions on index pairs;
all entries the code never assigns (everything off the diagonal for F and f,
the strict lower triangle for rep, anything out of range) keep the
uninitialized np.empty contents. -/
structure MixTables where
  atoms : List Tok
  atnumber : List ℤ
  atmass : List ℚ
  crystallatt : List ℚ
  crystal : List Tok
  Nrho : ℕ
  Nr : ℕ
  drho : ℚ
  dr : ℚ
  cutoff : ℚ
  F : ℕ → ℕ → List ℚ
  f : ℕ → ℕ → List ℚ
  rep : ℕ → ℕ → List ℚ

/-- One species of one input file inside the mixing loop of mix_eam_alloy:
resample the embedding row and the density row onto the common grids, then
locate the species own pair function through rep_list - a Python IndexError
when the species index exceeds the table, a numpy IndexError when the table
entry exceeds the first axis of the pair array - and resample row
rep[rep_list[i], 0, :] onto the common r grid.  The length checks model the
numpy broadcast ValueError on assignment. -/
def mixSpecies (resample : Resampler) (R : AlloyTables)
    (Nrho2 Nr2 : ℕ) (drho2 dr2 : ℚ) (i : ℕ) :
    Except PyErr (List ℚ × List ℚ × List ℚ) := do
  let Fi := resample (linspaceQ 0 ((R.Nrho : ℚ) * R.drho) R.Nrho) (R.F.getD i [])
              (linspaceQ 0 ((Nrho2 : ℚ) * drho2) Nrho2)
  if ¬ Fi.length = Nrho2 then throw .valueError
  let fi := resample (linspaceQ 0 ((R.Nr : ℚ) * R.dr) R.Nr) (R.f.getD i [])
              (linspaceQ 0 ((Nr2 : ℚ) * dr2) Nr2)
  if ¬ fi.length = Nr2 then throw .valueError
  if i < repListTable.length then
    let idx := repListTable.getD i 0
    if idx < R.atoms.length then
      let ri := resample (linspaceQ 0 ((R.Nr : ℚ) * R.dr) R.Nr) (R.rep idx 0)
                  (linspaceQ 0 ((Nr2 : ℚ) * dr2) Nr2)
      if ¬ ri.length = Nr2 then throw .valueError
      .ok (Fi, fi, ri)
    else throw .indexError
  else throw .indexError

/-- The per-file species loop of mix_eam_alloy: process every species of one
input, in order. -/
def mixFile (resample : Resampler) (R : AlloyTables)
    (Nrho2 Nr2 : ℕ) (drho2 dr2 : ℚ) :
    Except PyErr (List (List ℚ × List ℚ × List ℚ)) :=
  (List.range R.atoms.length).mapM (mixSpecies resample R Nrho2 Nr2 drho2 dr2)

/-- The geometric-mean mixing rule applied elementwise to two diagonal pair
rows: sqrt of the absolute value of the product. -/
def geoMix (xs ys : List ℚ) : List ℚ :=
  List.zipWith (fun a b => sqrtQ |a * b|) xs ys

/-- mix_eam_alloy: read every input (initR is the junk in each reader's
np.empty pair array), pick the common embedding grid by the input of smallest
Nrho*drho and the common r grid by the input of smallest cutoff, resample
every species onto the common grids filling only the diagonals of the three
output arrays, then fill the strict upper triangle of the pair table with the
geometric mean of the diagonals.  initF, initf and initRep are the junk in
the three uninitialized output arrays; every entry the loops never assign
keeps it. -/
def mixEamAlloy (resample : Resampler) (initR : ℕ → ℕ → ℕ → ℚ)
    (initF initf initRep : ℕ → ℕ → ℕ → ℚ)
    (files : List TextFile) : Except PyErr MixTables := do
  let reads ← files.mapM (readEamAlloy initR)
  let cutL := reads.map (fun R => R.cutoff)
  let prodL := reads.map (fun R => (R.Nrho : ℚ) * R.drho)
  let mc ← argminQ cutL
  let mp ← argminQ prodL
  let Nrho2 := (reads.map (fun R => R.Nrho)).getD mp 0
  let Nr2 := (reads.map (fun R => R.Nr)).getD mc 0
  let drho2 := (reads.map (fun R => R.drho)).getD mp 0
  let dr2 := (reads.map (fun R => R.dr)).getD mc 0
  let cutoff2 := cutL.getD mc 0
  let diags ← reads.mapM (fun R => mixFile resample R Nrho2 Nr2 drho2 dr2)
  let diag := diags.flatten
  let nb := diag.length
  .ok { atoms := (reads.map (fun R => R.atoms)).flatten,
        atnumber := (reads.map (fun R => R.atnumber)).flatten,
        atmass := (reads.map (fun R => R.atmass)).flatten,
        crystallatt := (reads.map (fun R => R.crystallatt)).flatten,
        crystal := (reads.map (fun R => R.crystal)).flatten,
        Nrho := Nrho2, Nr := Nr2, drho := drho2, dr := dr2, cutoff := cutoff2,
        F := fun i j =>
          if i = j ∧ i < nb then (diag.getD i ([], [], [])).1
          else (List.range Nrho2).map (initF i j),
        f := fun i j =>
          if i = j ∧ i < nb then (diag.getD i ([], [], [])).2.1
          else (List.range Nr2).map (initf i j),
        rep := fun i j =>
          if i < nb ∧ j < nb ∧ i < j then
            geoMix (diag.getD i ([], [], [])).2.2 (diag.getD j ([], [], [])).2.2
          else if i = j ∧ i < nb then (diag.getD i ([], [], [])).2.2
          else (List.range Nr2).map (initRep i j) }

/-- The values of one row of the written pair triangle, read through getD. -/
def rowVals (g : ℕ → ℕ → List ℚ) (i : ℕ) : List ℚ :=
  ((List.range (i + 1)).map (g i)).flatten

/-- The flattened pair triangle as a function of the row accessor. -/
def triFlat (g : ℕ → ℕ → List ℚ) (K : ℕ) : List ℚ :=
  ((List.range K).map (rowVals g)).flatten

/-- The per-species metadata tuple recovered when parsing back a written
species header line. -/
def metaValOf (h : AlloyHeader) (i : ℕ) : ℤ × ℚ × ℚ × Tok :=
  (h.atnumber.getD i 0, fmtF 6 (h.atmass.getD i 0), fmtF 6 (h.crystallatt.getD i 0),
   h.crystal.getD i (Tok.sym 0))

/-- The flat per-species data stream of a written file: for each species the
formatted embedding row followed by the formatted density row. -/
def dataFlatOf (h : AlloyHeader) (F f : List (List ℚ)) : List ℚ :=
  ((List.range h.atoms.length).map
    (fun i => (F.getD i []).map (fmtE 16) ++ (f.getD i []).map (fmtE 16))).flatten

/-- Projection: the error of a failed computation. -/
def errOf {α : Type} : Except PyErr α → Option PyErr
  | .error e => some e
  | .ok _ => none

/-- Projection: the grid parameters in a merged header. -/
def mixHeader (e : Except PyErr MixTables) : Option (ℕ × ℚ × ℕ × ℚ × ℚ) :=
  e.toOption.map (fun r => (r.Nrho, r.drho, r.Nr, r.dr, r.cutoff))

/-- Projection: one pair-table entry of a merge result. -/
def mixRepAt (e : Except PyErr MixTables) (i j : ℕ) : Option (List ℚ) :=
  e.toOption.map (fun r => r.rep i j)

/-- Projection: one pair-table entry of an alloy read result. -/
def repAt (e : Except PyErr AlloyTables) (i j : ℕ) : Option (List ℚ) :=
  e.toOption.map (fun r => r.rep i j)

/-- Projection: the three tables of a read_eam result. -/
def eamTablesOf (e : Except PyErr EamTables) : Option (List ℚ × List ℚ × List ℚ) :=
  e.toOption.map (fun r => (r.F, r.f, r.rep))

/-- A concrete junk pattern for uninitialized storage: every cell holds 77. -/
def junk77 : ℕ → ℕ → ℕ → ℚ := fun _ _ _ => 77

/-- A concrete resampler that returns the source values unchanged (the inputs
used with it share one grid, where the interpolating spline is the
identity). -/
def resampleKeep : Resampler := fun _ ys _ => ys

/-- A concrete resampler that returns the destination grid points themselves;
its output length always matches the destination grid. -/
def resampleGrid : Resampler := fun _ _ xd => xd

/-- A concrete well-formed two-species eam/alloy file with Nrho = Nr = 1:
comments, species line, grid line, two species blocks, then the pair
triangle in on-disk order: (0,0), (1,0), (1,1). -/
def fileTwo : TextFile :=
  [[Tok.sym 1], [Tok.sym 2], [Tok.sym 3],
   [Tok.num 2, Tok.sym 10, Tok.sym 11],
   [Tok.num 1, Tok.num (3/100), Tok.num 1, Tok.num (1/4), Tok.num 4],
   [Tok.num 26, Tok.num 2, Tok.num 3, Tok.sym 20],
   [Tok.num 21], [Tok.num 22],
   [Tok.num 29, Tok.num 2, Tok.num 3, Tok.sym 20],
   [Tok.num 31], [Tok.num 32],
   [Tok.num 100], [Tok.num 200], [Tok.num 300]]

/-- A concrete single-species alloy file whose self pair value is 4. -/
def fileSelfFour : TextFile :=
  [[Tok.sym 1], [Tok.sym 2], [Tok.sym 3],
   [Tok.num 1, Tok.sym 10],
   [Tok.num 1, Tok.num (1/100), Tok.num 1, Tok.num (1/2), Tok.num 5],
   [Tok.num 26, Tok.num 2, Tok.num 3, Tok.sym 20],
   [Tok.num 11], [Tok.num 12], [Tok.num 4]]

/-- A concrete single-species alloy file whose self pair value is 9. -/
def fileSelfNine : TextFile :=
  [[Tok.sym 1], [Tok.sym 2], [Tok.sym 3],
   [Tok.num 1, Tok.sym 30],
   [Tok.num 1, Tok.num (1/100), Tok.num 1, Tok.num (1/2), Tok.num 5],
   [Tok.num 29, Tok.num 2, Tok.num 3, Tok.sym 20],
   [Tok.num 13], [Tok.num 14], [Tok.num 9]]

/-- A concrete single-species alloy file with Nrho = 2, drho = 1/100 (product
1/50), Nr = 1, cutoff = 5. -/
def fileGridA : TextFile :=
  [[Tok.sym 1], [Tok.sym 2], [Tok.sym 3],
   [Tok.num 1, Tok.sym 10],
   [Tok.num 2, Tok.num (1/100), Tok.num 1, Tok.num (1/2), Tok.num 5],
   [Tok.num 26, Tok.num 2, Tok.num 3, Tok.sym 20],
   [Tok.num 11], [Tok.num 15], [Tok.num 12], [Tok.num 4]]

/-- A concrete single-species alloy file with Nrho = 1, drho = 3/100 (product
3/100), Nr = 2, cutoff = 4: larger embedding span, smaller cutoff. -/
def fileGridB : TextFile :=
  [[Tok.sym 1], [Tok.sym 2], [Tok.sym 3],
   [Tok.num 1, Tok.sym 30],
   [Tok.num 1, Tok.num (3/100), Tok.num 2, Tok.num (1/4), Tok.num 4],
   [Tok.num 29, Tok.num 2, Tok.num 3, Tok.sym 20],
   [Tok.num 13], [Tok.num 14], [Tok.num 16], [Tok.num 9], [Tok.num 8]]

/-- A concrete well-formed six-species alloy file with Nrho = Nr = 1: six
species blocks of three lines each, then the 21-row pair triangle. -/
def fileSix : TextFile :=
  [[Tok.sym 1], [Tok.sym 2], [Tok.sym 3],
   [Tok.num 6, Tok.sym 10, Tok.sym 11, Tok.sym 12, Tok.sym 13, Tok.sym 14, Tok.sym 15],
   [Tok.num 1, Tok.num (1/100), Tok.num 1, Tok.num (1/2), Tok.num 5]]
  ++ ((List.range 6).map (fun i =>
       [[Tok.num (26 + (i : ℚ)), Tok.num 2, Tok.num 3, Tok.sym 20],
        [Tok.num (40 + (i : ℚ))], [Tok.num (50 + (i : ℚ))]])).flatten
  ++ (List.range 21).map (fun k => [Tok.num ((k : ℚ) + 1)])

/-- Projection: the embedding spacing of an alloy read result. -/
def drhoAt (e : Except PyErr AlloyTables) : Option ℚ :=
  e.toOption.map (fun r => r.drho)

/-- Default header tuple used with getD when reading off merged grid
parameters. -/
def hdrDefault : ℕ × ℚ × ℕ × ℚ × ℚ := (0, 0, 0, 0, 0)

/-- A default table value for getD on lists of read results. -/
def defaultAlloy : AlloyTables :=
  { src0 := [], src1 := [], src2 := [], atoms := [], atnumber := [], atmass := [],
    crystallatt := [], crystal := [], Nrho := 0, Nr := 0, drho := 0, dr := 0,
    cutoff := 0, F := [], f := [], rep := fun _ _ => [] }

/-- The header tuples of the two concrete grid files, in order. -/
def hdrsGrid : List (ℕ × ℚ × ℕ × ℚ × ℚ) :=
  [(2, 1/100, 1, 1/2, 5), (1, 3/100, 2, 1/4, 4)]

/-- A concrete eam file declaring Nrho = 5 and Nr = 2 whose body holds only
two numeric tokens instead of the required nine. -/
def fileTruncated : TextFile :=
  [[Tok.sym 1], [Tok.num 26, Tok.num 2, Tok.num 3, Tok.sym 20],
   [Tok.num 5, Tok.num (1/100), Tok.num 2, Tok.num (1/2), Tok.num 6],
   [Tok.num 1], [Tok.num 2]]

/-- A concrete eam file whose line 2 carries 4 tokens instead of the required
5. -/
def fileBadHeader : TextFile :=
  [[Tok.sym 1], [Tok.num 26, Tok.num 2, Tok.num 3, Tok.sym 20],
   [Tok.num 2, Tok.num (1/100), Tok.num 1, Tok.num (1/2)]]

/-- A concrete two-species alloy header for writer tests. -/
def hdrOne : AlloyHeader :=
  { atoms := [Tok.sym 10, Tok.sym 11], atnumber := [26, 29], atmass := [2, 3],
    crystallatt := [4, 5], crystal := [Tok.sym 20, Tok.sym 21],
    Nrho := 1, Nr := 1, drho := 1/100, dr := 1/2, cutoff := 5 }

/-- A concrete 2 x 2 x 1 pair table. -/
def repLowerA : List (List (List ℚ)) := [[[10], [77]], [[20], [30]]]

/-- The same pair table with a different upper-triangle entry. -/
def repLowerB : List (List (List ℚ)) := [[[10], [99]], [[20], [30]]]

/-- A single-species header whose drho carries nine significant digits, more
than the seven kept by the writer's plain %e grid-line format. -/
def hdrPrec : AlloyHeader :=
  { atoms := [Tok.sym 500], atnumber := [1], atmass := [1], crystallatt := [1],
    crystal := [Tok.sym 501], Nrho := 1, Nr := 1,
    drho := 123456789/1000000000, dr := 1/2, cutoff := 5 }

/-- A concrete two-species header with unit table sizes, for the round-trip
witness. -/
def hdrRound : AlloyHeader :=
  { atoms := [Tok.sym 600, Tok.sym 601], atnumber := [1, 2], atmass := [1, 2],
    crystallatt := [1, 2], crystal := [Tok.sym 602, Tok.sym 603],
    Nrho := 1, Nr := 1, drho := 1/100, dr := 1/2, cutoff := 5 }

/-- Embedding rows for the round-trip witness. -/
def fwF : List (List ℚ) := [[2], [3]]

/-- Density rows for the round-trip witness. -/
def fwf : List (List ℚ) := [[4], [5]]

/-- Lower-triangle pair rows for the round-trip witness. -/
def fwRep : List (List (List ℚ)) := [[[6]], [[7], [8]]]

/-! ### Helper lemmas -/

theorem ebind_ok {α β : Type} (a : α) (g : α → Except PyErr β) :
    (Except.ok a >>= g) = g a := rfl

theorem ebind_err {α β : Type} (e : PyErr) (g : α → Except PyErr β) :
    ((Except.error e : Except PyErr α) >>= g) = .error e := rfl

theorem ethrow_eq {α : Type} (e : PyErr) : (throw e : Except PyErr α) = .error e := rfl

theorem intOfTok_intCast (z : ℤ) : intOfTok (Tok.num (z : ℚ)) = .ok z := by
  simp [intOfTok, Rat.den_intCast, Rat.num_intCast]

theorem intOfTok_natCast (n : ℕ) : intOfTok (Tok.num (n : ℚ)) = .ok (n : ℤ) := by
  simp [intOfTok, Rat.den_natCast, Rat.num_natCast]

/-! ### Claim C5 -/

/-- C5, counterexample to the claim as stated: mix_eam_alloy on the empty file
list fails with the generic numpy ValueError coming from argmin on an empty
sequence, not with the dedicated EmptyInputError kind the claim names. -/
theorem c5_counterexample :
    errOf (mixEamAlloy resampleKeep junk77 junk77 junk77 junk77 []) = some PyErr.valueError ∧
    errOf (mixEamAlloy resampleKeep junk77 junk77 junk77 junk77 []) ≠ some PyErr.emptyInputError := by
  refine ⟨rfl, ?_⟩
  intro h
  have h2 : some PyErr.valueError = some PyErr.emptyInputError :=
    (rfl : errOf (mixEamAlloy resampleKeep junk77 junk77 junk77 junk77 []) =
      some PyErr.valueError).symm.trans h
  simp at h2

/-- C5, amended: mix_eam_alloy applied to an empty list of files does fail,
but with the generic ValueError that numpy argmin raises on an empty sequence
(the code has no dedicated empty-input check), for every resampler and every
uninitialized-storage contents. -/
theorem c5_empty_mix (resample : Resampler) (initR initF initf initRep : ℕ → ℕ → ℕ → ℚ) :
    errOf (mixEamAlloy resample initR initF initf initRep []) = some PyErr.valueError := rfl

theorem take_min_length {α : Type} (xs : List α) (n : ℕ) :
    xs.take (min n xs.length) = xs.take n := by
  rcases le_total n xs.length with h | h
  · rw [min_eq_left h]
  · rw [min_eq_right h, List.take_length, List.take_of_length_le h]

theorem drop_min_length {α : Type} (xs : List α) (n : ℕ) :
    xs.drop (min n xs.length) = xs.drop n := by
  rcases le_total n xs.length with h | h
  · rw [min_eq_left h]
  · rw [min_eq_right h, List.drop_length, (List.drop_eq_nil_of_le h).symm]

theorem pySlice_natCast {α : Type} (xs : List α) (a b : ℕ) :
    pySlice xs (a : ℤ) (b : ℤ) = (xs.drop a).take (b - a) := by
  unfold pySlice pySliceIdx
  rw [if_neg (by omega), if_neg (by omega), Int.toNat_natCast, Int.toNat_natCast,
    take_min_length]
  rcases le_total a xs.length with h | h
  · rw [min_eq_left h, List.drop_take b a xs]
  · rw [min_eq_right h]
    have e1 : List.drop xs.length (List.take b xs) = [] :=
      List.drop_eq_nil_of_le (by rw [List.length_take]; omega)
    have e2 : List.drop a xs = [] := List.drop_eq_nil_of_le h
    rw [e1, e2, List.take_nil]

theorem pySlice_eam_F (xs : List ℚ) (a : ℕ) :
    pySlice xs 0 (a : ℤ) = xs.take a := by
  have h := pySlice_natCast xs 0 a
  simpa using h

theorem pySlice_eam_f (xs : List ℚ) (a b : ℕ) :
    pySlice xs (a : ℤ) ((a : ℤ) + (b : ℤ)) = (xs.drop a).take b := by
  have h := pySlice_natCast xs a (a + b)
  push_cast at h
  simpa using h

theorem pySlice_eam_rep (xs : List ℚ) (a b : ℕ) :
    pySlice xs ((a : ℤ) + (b : ℤ)) (2 * (b : ℤ) + (a : ℤ)) = (xs.drop (a + b)).take b := by
  have h := pySlice_natCast xs (a + b) (2 * b + a)
  rw [show 2 * b + a - (a + b) = b by omega] at h
  have e1 : (a : ℤ) + (b : ℤ) = ((a + b : ℕ) : ℤ) := by push_cast; ring
  have e2 : 2 * (b : ℤ) + (a : ℤ) = ((2 * b + a : ℕ) : ℤ) := by push_cast; ring
  rw [e1, e2, h]

/-- Evaluation of read_eam on any file whose three header lines are
well-formed: the header fields are returned verbatim and the three tables are
the Python slices of the flat body, which clamp to the available data. -/
theorem readEam_slices (l0 : Line) (z : ℤ) (m c : ℚ) (cr : Tok) (t1 t2 : List Tok)
    (N1 N2 : ℕ) (dq dq2 cq : ℚ) (body : TextFile) (data : List ℚ)
    (hb : loadtxt body = .ok data) :
    readEam (l0 :: (Tok.num (z : ℚ) :: Tok.num m :: Tok.num c :: cr :: t1) ::
      (Tok.num (N1 : ℚ) :: Tok.num dq :: Tok.num (N2 : ℚ) :: Tok.num dq2 ::
        Tok.num cq :: t2) :: body)
      = .ok { source := l0, atnumber := z, atmass := m, crystallatt := c, crystal := cr,
              Nrho := (N1 : ℤ), Nr := (N2 : ℤ), drho := dq, dr := dq2, cutoff := cq,
              F := data.take N1, f := (data.drop N1).take N2,
              rep := (data.drop (N1 + N2)).take N2 } := by
  simp +decide [readEam, pyIndex, intOfTok_intCast, intOfTok_natCast, floatOfTok,
    ebind_ok, ebind_err, hb, pySlice_eam_F, pySlice_eam_f, pySlice_eam_rep]

/-! ### Claim C7 -/

/-- C7, counterexample to the claim as stated: on a file whose line 2 has 4
tokens instead of 5, read_eam fails with width-generic IndexError (raised by
the out-of-range token access), not with a dedicated MalformedHeaderError
kind. -/
theorem c7_counterexample :
    errOf (readEam fileBadHeader) = some PyErr.indexError ∧
    errOf (readEam fileBadHeader) ≠ some PyErr.malformedHeaderError := by
  have h1 : errOf (readEam fileBadHeader) = some PyErr.indexError := by
    with_unfolding_all rfl
  exact ⟨h1, by rw [h1]; simp⟩

/-- C7, amended: read_eam does fail on any file whose line 2 carries exactly
4 tokens instead of the required 5 (whatever the surrounding values), but
with the generic Python IndexError raised by the token access, not with a
dedicated MalformedHeaderError kind. -/
theorem c7_malformed (l0 : Line) (z : ℤ) (m c : ℚ) (cr : Tok) (t1 : List Tok)
    (N1 N2 : ℕ) (q1 q3 : ℚ) (body : TextFile) :
    readEam (l0 :: (Tok.num (z : ℚ) :: Tok.num m :: Tok.num c :: cr :: t1) ::
      [Tok.num (N1 : ℚ), Tok.num q1, Tok.num (N2 : ℚ), Tok.num q3] :: body)
      = .error .indexError := by
  simp +decide [readEam, pyIndex, intOfTok_intCast, intOfTok_natCast, floatOfTok,
    ebind_ok, ebind_err]

/-! ### Claim C6 -/

/-- C6, counterexample to the claim as stated: a file declaring Nrho = 5 and
Nr = 2 whose body holds 2 tokens is read without any error - in particular
without TruncatedDataError - and the returned tables are silently shorter
than declared (F has 2 of 5 values, f and rep are empty). -/
theorem c6_counterexample :
    errOf (readEam fileTruncated) = none ∧
    eamTablesOf (readEam fileTruncated) = some ([1, 2], [], []) ∧
    errOf (readEam fileTruncated) ≠ some PyErr.truncatedDataError := by
  have h1 : errOf (readEam fileTruncated) = none := by with_unfolding_all rfl
  have h2 : eamTablesOf (readEam fileTruncated) = some ([1, 2], [], []) := by
    with_unfolding_all rfl
  exact ⟨h1, h2, by rw [h1]; simp⟩

/-- C6, amended: on a well-formed header declaring Nrho and Nr whose numeric
body holds fewer than Nrho + 2 Nr values, read_eam does not fail at all: the
numpy slices clamp silently, the call succeeds, and the returned tables are
shorter than the declared sizes. -/
theorem c6_truncated (l0 : Line) (z : ℤ) (m c : ℚ) (cr : Tok) (t1 t2 : List Tok)
    (N1 N2 : ℕ) (dq dq2 cq : ℚ) (body : TextFile) (data : List ℚ)
    (hb : loadtxt body = .ok data) (hshort : data.length < N1 + 2 * N2) :
    errOf (readEam (l0 :: (Tok.num (z : ℚ) :: Tok.num m :: Tok.num c :: cr :: t1) ::
      (Tok.num (N1 : ℚ) :: Tok.num dq :: Tok.num (N2 : ℚ) :: Tok.num dq2 ::
        Tok.num cq :: t2) :: body)) = none ∧
    eamTablesOf (readEam (l0 :: (Tok.num (z : ℚ) :: Tok.num m :: Tok.num c :: cr :: t1) ::
      (Tok.num (N1 : ℚ) :: Tok.num dq :: Tok.num (N2 : ℚ) :: Tok.num dq2 ::
        Tok.num cq :: t2) :: body)) =
      some (data.take N1, (data.drop N1).take N2, (data.drop (N1 + N2)).take N2) ∧
    ¬ ((data.take N1).length = N1 ∧ ((data.drop N1).take N2).length = N2 ∧
       ((data.drop (N1 + N2)).take N2).length = N2) := by
  have h := readEam_slices l0 z m c cr t1 t2 N1 N2 dq dq2 cq body data hb
  refine ⟨by rw [h]; rfl, by rw [h]; rfl, ?_⟩
  rintro ⟨e1, e2, e3⟩
  simp [List.length_take, List.length_drop] at e1 e2 e3
  omega

/-- C6, witness: the amended theorem applied to the concrete truncated file
of the counterexample (Nrho = 5, Nr = 2, two body tokens). -/
theorem c6_truncated_witness :
    errOf (readEam ([Tok.sym 1] :: (Tok.num ((26 : ℤ) : ℚ) :: Tok.num 2 :: Tok.num 3 ::
      Tok.sym 20 :: []) :: (Tok.num ((5 : ℕ) : ℚ) :: Tok.num (1/100) ::
      Tok.num ((2 : ℕ) : ℚ) :: Tok.num (1/2) :: Tok.num 6 :: []) ::
      [[Tok.num 1], [Tok.num 2]])) = none ∧
    eamTablesOf (readEam ([Tok.sym 1] :: (Tok.num ((26 : ℤ) : ℚ) :: Tok.num 2 :: Tok.num 3 ::
      Tok.sym 20 :: []) :: (Tok.num ((5 : ℕ) : ℚ) :: Tok.num (1/100) ::
      Tok.num ((2 : ℕ) : ℚ) :: Tok.num (1/2) :: Tok.num 6 :: []) ::
      [[Tok.num 1], [Tok.num 2]])) = some ([1, 2], [], []) ∧
    ¬ ((([1, 2] : List ℚ)).length = 5 ∧ (([] : List ℚ)).length = 2 ∧
       (([] : List ℚ)).length = 2) :=
  c6_truncated [Tok.sym 1] 26 2 3 (Tok.sym 20) [] [] 5 2 (1/100) (1/2) 6
    [[Tok.num 1], [Tok.num 2]] [1, 2] rfl (by decide)

/-! ### Claim C10 -/

/-- C10: when the numeric body holds at least Nrho + 2 Nr values, read_eam
succeeds, silently ignores the surplus, and returns exactly the first Nrho
values as F, the next Nr as f and the next Nr as rep. -/
theorem c10_surplus (l0 : Line) (z : ℤ) (m c : ℚ) (cr : Tok) (t1 t2 : List Tok)
    (N1 N2 : ℕ) (dq dq2 cq : ℚ) (body : TextFile) (data : List ℚ)
    (hb : loadtxt body = .ok data) (hlen : N1 + 2 * N2 ≤ data.length) :
    eamTablesOf (readEam (l0 :: (Tok.num (z : ℚ) :: Tok.num m :: Tok.num c :: cr :: t1) ::
      (Tok.num (N1 : ℚ) :: Tok.num dq :: Tok.num (N2 : ℚ) :: Tok.num dq2 ::
        Tok.num cq :: t2) :: body)) =
      some (data.take N1, (data.drop N1).take N2, (data.drop (N1 + N2)).take N2) ∧
    (data.take N1).length = N1 ∧ ((data.drop N1).take N2).length = N2 ∧
    ((data.drop (N1 + N2)).take N2).length = N2 := by
  have h := readEam_slices l0 z m c cr t1 t2 N1 N2 dq dq2 cq body data hb
  refine ⟨by rw [h]; rfl, ?_, ?_, ?_⟩ <;>
    simp [List.length_take, List.length_drop] <;> omega

/-- C10, witness: the theorem applied to a concrete file declaring Nrho = 2
and Nr = 1 over a five-token body: the fifth token is silently ignored. -/
theorem c10_surplus_witness :
    eamTablesOf (readEam ([Tok.sym 1] :: (Tok.num ((26 : ℤ) : ℚ) :: Tok.num 2 :: Tok.num 3 ::
      Tok.sym 20 :: []) :: (Tok.num ((2 : ℕ) : ℚ) :: Tok.num (1/100) ::
      Tok.num ((1 : ℕ) : ℚ) :: Tok.num (1/2) :: Tok.num 6 :: []) ::
      [[Tok.num 1], [Tok.num 2], [Tok.num 3], [Tok.num 4], [Tok.num 5]])) =
      some ([1, 2], [3], [4]) ∧
    (([1, 2] : List ℚ)).length = 2 ∧ (([3] : List ℚ)).length = 1 ∧
    (([4] : List ℚ)).length = 1 :=
  c10_surplus [Tok.sym 1] 26 2 3 (Tok.sym 20) [] [] 2 1 (1/100) (1/2) 6
    [[Tok.num 1], [Tok.num 2], [Tok.num 3], [Tok.num 4], [Tok.num 5]] [1, 2, 3, 4, 5]
    rfl (by decide)

/-! ### Claim C4 -/

/-- C4, counterexample to the claim as stated: reading a concrete well-formed
two-species alloy file with uninitialized pair storage holding 77 everywhere
returns rep[0,1] = 77 (the junk) while rep[1,0] = 200 (the stored cross
term): the upper triangle is not mirrored from the lower one. -/
theorem c4_counterexample :
    repAt (readEamAlloy junk77 fileTwo) 0 1 = some [77] ∧
    repAt (readEamAlloy junk77 fileTwo) 1 0 = some [200] ∧
    repAt (readEamAlloy junk77 fileTwo) 0 1 ≠ repAt (readEamAlloy junk77 fileTwo) 1 0 := by
  have h1 : repAt (readEamAlloy junk77 fileTwo) 0 1 = some [77] := by
    with_unfolding_all rfl
  have h2 : repAt (readEamAlloy junk77 fileTwo) 1 0 = some [200] := by
    with_unfolding_all rfl
  exact ⟨h1, h2, by rw [h1, h2]; simp⟩

/-- C4, amended: read_eam_alloy fills only the lower triangle including the
diagonal of the pair table from the file; every strict-upper-triangle entry
is never assigned and keeps the uninitialized np.empty contents, whatever the
input file. -/
theorem c4_upper_triangle (init : ℕ → ℕ → ℕ → ℚ) (file : TextFile) (i j : ℕ)
    (hij : i < j) :
    repAt (readEamAlloy init file) i j =
      (readEamAlloy init file).toOption.map (fun r => (List.range r.Nr).map (init i j)) := by
  cases h : readEamAlloyCore file with
  | error e => simp [repAt, readEamAlloy, h, Except.map, Except.toOption]
  | ok c =>
      simp only [repAt, readEamAlloy, h, Except.map, Except.toOption, Option.map]
      rw [assembleAlloy]
      simp only
      rw [if_neg (by omega)]

/-- C4, witness: the amended theorem applied at the concrete two-species file
and junk pattern of the counterexample, at entry (0,1). -/
theorem c4_upper_triangle_witness :
    repAt (readEamAlloy junk77 fileTwo) 0 1 =
      (readEamAlloy junk77 fileTwo).toOption.map (fun r => (List.range r.Nr).map (junk77 0 1)) :=
  c4_upper_triangle junk77 fileTwo 0 1 (by decide)

/-! ### Claim C2 -/

/-- C2: evaluation at the failing input.  Mixing two single-species inputs
whose self pair values are 4 and 9 (on identical grids, with an identity
resampler and uninitialized output storage holding 77) produces
rep[0,1] = sqrt(4*9) = 6 as claimed, but rep[1,0] keeps the uninitialized
junk 77: the geometric-mean rule is applied only to the strict upper
triangle (j > i), the lower cross entries are never assigned, and the merged
pair table is not symmetric - while the writer serializes exactly the j < i
entries. -/
theorem c2_code_bug_eval :
    mixRepAt (mixEamAlloy resampleKeep junk77 junk77 junk77 junk77
      [fileSelfFour, fileSelfNine]) 0 1 = some [6] ∧
    mixRepAt (mixEamAlloy resampleKeep junk77 junk77 junk77 junk77
      [fileSelfFour, fileSelfNine]) 1 0 = some [77] ∧
    mixRepAt (mixEamAlloy resampleKeep junk77 junk77 junk77 junk77
      [fileSelfFour, fileSelfNine]) 0 1 ≠
      mixRepAt (mixEamAlloy resampleKeep junk77 junk77 junk77 junk77
        [fileSelfFour, fileSelfNine]) 1 0 := by
  have h1 : mixRepAt (mixEamAlloy resampleKeep junk77 junk77 junk77 junk77
      [fileSelfFour, fileSelfNine]) 0 1 = some [6] := by
    with_unfolding_all rfl
  have h2 : mixRepAt (mixEamAlloy resampleKeep junk77 junk77 junk77 junk77
      [fileSelfFour, fileSelfNine]) 1 0 = some [77] := by
    with_unfolding_all rfl
  exact ⟨h1, h2, by rw [h1, h2]; simp⟩

/-! ### Claim C9 -/

/-- C9: write_eam_alloy reads only the lower triangle including the diagonal
of the pair table: two pair tables of the same length that agree on every
entry with j at most i produce bytewise-identical files, whatever their
strict-upper-triangle entries. -/
theorem c9_lower_triangle (source : List Tok) (h : AlloyHeader)
    (F f : List (List ℚ)) (rep1 rep2 : List (List (List ℚ)))
    (hlen : rep1.length = rep2.length)
    (hag : ∀ i ∈ List.range rep1.length, ∀ j ∈ List.range (i + 1),
      (rep1.getD i []).getD j [] = (rep2.getD i []).getD j []) :
    writeEamAlloy source h F f rep1 = writeEamAlloy source h F f rep2 := by
  have htri : triVals rep1 = triVals rep2 := by
    unfold triVals
    rw [← hlen]
    refine congrArg List.flatten (List.map_congr_left ?_)
    intro i hi
    refine congrArg List.flatten (List.map_congr_left ?_)
    intro j hj
    exact hag i hi j hj
  unfold writeEamAlloy
  rw [htri]

/-- C9, witness: the theorem applied to two concrete 2 x 2 x 1 pair tables
that differ only in the upper-triangle entry (0,1); the written files
coincide. -/
theorem c9_lower_triangle_witness :
    writeEamAlloy [Tok.sym 8] hdrOne [[11], [21]] [[12], [22]] repLowerA =
      writeEamAlloy [Tok.sym 8] hdrOne [[11], [21]] [[12], [22]] repLowerB :=
  c9_lower_triangle [Tok.sym 8] hdrOne [[11], [21]] [[12], [22]] repLowerA repLowerB
    (by decide) (by decide)

/-! ### Lemmas about mapM over Except, argmin and the mixing loops -/

theorem mapM_err_of_bad {α β : Type} (g : α → Except PyErr β) (e : PyErr) :
    ∀ (l : List α), (∀ a ∈ l, (∃ b, g a = .ok b) ∨ g a = .error e) →
      (∃ a ∈ l, g a = .error e) → l.mapM g = .error e := by
  intro l
  induction l with
  | nil => rintro _ ⟨a, ha, _⟩; simp at ha
  | cons x xs ih =>
      rintro hcases ⟨a, ha, hae⟩
      rw [List.mapM_cons g]
      rcases hcases x (by simp) with ⟨b, hb⟩ | hx
      · rw [hb, ebind_ok]
        have hxs : ∃ a ∈ xs, g a = .error e := by
          rcases List.mem_cons.mp ha with rfl | hmem
          · rw [hb] at hae; exact absurd hae (by simp)
          · exact ⟨a, hmem, hae⟩
        rw [ih (fun a ha => hcases a (by simp [ha])) hxs, ebind_err]
      · rw [hx, ebind_err]

theorem mapM_cases_ok_err {α β : Type} (g : α → Except PyErr β) (e : PyErr) :
    ∀ (l : List α), (∀ a ∈ l, (∃ b, g a = .ok b) ∨ g a = .error e) →
      (∃ bs, l.mapM g = .ok bs) ∨ l.mapM g = .error e := by
  intro l
  induction l with
  | nil => intro _; exact Or.inl ⟨[], rfl⟩
  | cons x xs ih =>
      intro hcases
      rw [List.mapM_cons g]
      rcases hcases x (by simp) with ⟨b, hb⟩ | hx
      · rw [hb, ebind_ok]
        rcases ih (fun a ha => hcases a (by simp [ha])) with ⟨bs, hbs⟩ | hbs
        · exact Or.inl ⟨b :: bs, by rw [hbs, ebind_ok]; rfl⟩
        · exact Or.inr (by rw [hbs, ebind_err])
      · exact Or.inr (by rw [hx, ebind_err])

theorem mapM_ok_of_forall {α β : Type} (g : α → Except PyErr β) :
    ∀ (l : List α), (∀ a ∈ l, ∃ b, g a = .ok b) → ∃ bs, l.mapM g = .ok bs := by
  intro l
  induction l with
  | nil => intro _; exact ⟨[], rfl⟩
  | cons x xs ih =>
      intro hok
      obtain ⟨b, hb⟩ := hok x (by simp)
      obtain ⟨bs, hbs⟩ := ih (fun a ha => hok a (by simp [ha]))
      exact ⟨b :: bs, by rw [List.mapM_cons g, hb, ebind_ok, hbs, ebind_ok]; rfl⟩

theorem mapM_ok_mem {α β : Type} (g : α → Except PyErr β) :
    ∀ (l : List α) (bs : List β), l.mapM g = .ok bs →
      ∀ a ∈ l, ∀ b, g a = .ok b → b ∈ bs := by
  intro l
  induction l with
  | nil => intro bs _ a ha; simp at ha
  | cons x xs ih =>
      intro bs hm a ha b hb
      rw [List.mapM_cons g] at hm
      cases hx : g x with
      | error e => rw [hx, ebind_err] at hm; exact absurd hm (by simp)
      | ok bx =>
          rw [hx, ebind_ok] at hm
          cases hxs : xs.mapM g with
          | error e => rw [hxs, ebind_err] at hm; exact absurd hm (by simp)
          | ok bxs =>
              rw [hxs, ebind_ok] at hm
              have hbs : bx :: bxs = bs := by simpa [pure, Except.pure] using hm
              rcases List.mem_cons.mp ha with rfl | hmem
              · rw [hx] at hb
                have hbb : bx = b := by simpa using hb
                rw [← hbs, hbb]; simp
              · have hmemb := ih bxs hxs a hmem b hb
                rw [← hbs]; simp [hmemb]

theorem getD_map_lt {α β : Type} (g : α → β) (da : α) (db : β) :
    ∀ (l : List α) (k : ℕ), k < l.length → (l.map g).getD k db = g (l.getD k da) := by
  intro l
  induction l with
  | nil => intro k hk; simp at hk
  | cons x xs ih =>
      intro k hk
      cases k with
      | zero => simp
      | succ k =>
          simp only [List.map_cons, List.getD_cons_succ]
          exact ih k (by simpa using hk)

theorem linspaceQ_length (a b : ℚ) (n : ℕ) : (linspaceQ a b n).length = n := by
  unfold linspaceQ
  split
  · exact List.length_replicate _ _
  · exact (List.length_map _ _).trans (List.length_range n)

theorem argminAux_spec (L : List ℚ) :
    ∀ (xs : List ℚ) (i best : ℕ) (bv : ℚ),
      (∀ k, k < xs.length → L.getD (i + k) 0 = xs.getD k 0) →
      best < i → L.getD best 0 = bv →
      (∀ j, j < i → bv ≤ L.getD j 0) →
      argminAux xs i best bv < i + xs.length ∧
        ∀ j, j < i + xs.length → L.getD (argminAux xs i best bv) 0 ≤ L.getD j 0 := by
  intro xs
  induction xs with
  | nil =>
      intro i best bv _ hbest hbv hmin
      simp only [argminAux]
      refine ⟨by simpa using hbest, ?_⟩
      intro j hj
      rw [hbv]
      exact hmin j (by simpa using hj)
  | cons x xs ih =>
      intro i best bv hsuffix hbest hbv hmin
      have hLi : L.getD i 0 = x := by
        have := hsuffix 0 (by simp)
        simpa using this
      by_cases hx : x < bv
      · rw [show argminAux (x :: xs) i best bv = argminAux xs (i + 1) i x from by
          rw [argminAux]; rw [if_pos hx]]
        have h := ih (i + 1) i x
          (fun k hk => by
            have := hsuffix (k + 1) (by simpa using hk)
            rw [show i + (k + 1) = i + 1 + k by omega] at this
            simpa using this)
          (by omega) hLi
          (fun j hj => by
            rcases Nat.lt_succ_iff_lt_or_eq.mp hj with hj2 | rfl
            · exact le_of_lt (lt_of_lt_of_le hx (hmin j hj2))
            · exact le_of_eq hLi.symm)
        have hlc : (x :: xs).length = xs.length + 1 := List.length_cons x xs
        refine ⟨by have := h.1; omega, ?_⟩
        intro j hj
        exact h.2 j (by omega)
      · rw [show argminAux (x :: xs) i best bv = argminAux xs (i + 1) best bv from by
          rw [argminAux]; rw [if_neg hx]]
        have h := ih (i + 1) best bv
          (fun k hk => by
            have := hsuffix (k + 1) (by simpa using hk)
            rw [show i + (k + 1) = i + 1 + k by omega] at this
            simpa using this)
          (by omega) hbv
          (fun j hj => by
            rcases Nat.lt_succ_iff_lt_or_eq.mp hj with hj2 | rfl
            · exact hmin j hj2
            · rw [hLi]; exact le_of_not_lt hx)
        have hlc : (x :: xs).length = xs.length + 1 := List.length_cons x xs
        refine ⟨by have := h.1; omega, ?_⟩
        intro j hj
        exact h.2 j (by omega)

theorem argminQ_ok_spec (L : List ℚ) (r : ℕ) (h : argminQ L = .ok r) :
    r < L.length ∧ ∀ k, k < L.length → L.getD r 0 ≤ L.getD k 0 := by
  cases L with
  | nil => exact absurd h (by simp [argminQ])
  | cons x xs =>
      have hr : r = argminAux xs 1 0 x := by
        have := h
        rw [argminQ] at this
        simpa using this.symm
      have h2 := argminAux_spec (x :: xs) xs 1 0 x
        (fun k hk => by
          rw [show 1 + k = k + 1 by omega]
          exact List.getD_cons_succ)
        (by omega) (by simp)
        (fun j hj => by interval_cases j <;> simp)
      rw [← hr] at h2
      have hlc : (x :: xs).length = xs.length + 1 := List.length_cons x xs
      refine ⟨by have := h2.1; omega, ?_⟩
      intro k hk
      exact h2.2 k (by omega)

theorem mixSpecies_ok (resample : Resampler) (R : AlloyTables) (Nrho2 Nr2 : ℕ)
    (drho2 dr2 : ℚ) (i : ℕ)
    (hres : ∀ xs ys xd, (resample xs ys xd).length = xd.length)
    (h5 : i < 5) (hidx : repListTable.getD i 0 < R.atoms.length) :
    mixSpecies resample R Nrho2 Nr2 drho2 dr2 i =
      .ok (resample (linspaceQ 0 ((R.Nrho : ℚ) * R.drho) R.Nrho) (R.F.getD i [])
              (linspaceQ 0 ((Nrho2 : ℚ) * drho2) Nrho2),
           resample (linspaceQ 0 ((R.Nr : ℚ) * R.dr) R.Nr) (R.f.getD i [])
              (linspaceQ 0 ((Nr2 : ℚ) * dr2) Nr2),
           resample (linspaceQ 0 ((R.Nr : ℚ) * R.dr) R.Nr) (R.rep (repListTable.getD i 0) 0)
              (linspaceQ 0 ((Nr2 : ℚ) * dr2) Nr2)) := by
  have h5l : i < repListTable.length := by simpa [repListTable] using h5
  have hidx2 : repListTable[i] < R.atoms.length := by
    rw [← List.getD_eq_getElem repListTable 0 h5l]
    exact hidx
  simp [mixSpecies, hres, linspaceQ_length, h5l, hidx2, ethrow_eq,
    List.getD_eq_getElem repListTable 0 h5l]

theorem mixSpecies_err (resample : Resampler) (R : AlloyTables) (Nrho2 Nr2 : ℕ)
    (drho2 dr2 : ℚ) (i : ℕ)
    (hres : ∀ xs ys xd, (resample xs ys xd).length = xd.length)
    (hbad : ¬ (i < 5 ∧ repListTable.getD i 0 < R.atoms.length)) :
    mixSpecies resample R Nrho2 Nr2 drho2 dr2 i = .error .indexError := by
  by_cases h5 : i < repListTable.length
  · have hidx : ¬ repListTable.getD i 0 < R.atoms.length := by
      intro hc
      exact hbad ⟨by simpa [repListTable] using h5, hc⟩
    have hidx2 : ¬ repListTable[i] < R.atoms.length := by
      rw [← List.getD_eq_getElem repListTable 0 h5]
      exact hidx
    simp [mixSpecies, hres, linspaceQ_length, h5, hidx2, ethrow_eq]
  · simp [mixSpecies, hres, linspaceQ_length, h5, ethrow_eq]

theorem mixFile_err (resample : Resampler) (R : AlloyTables) (Nrho2 Nr2 : ℕ)
    (drho2 dr2 : ℚ)
    (hres : ∀ xs ys xd, (resample xs ys xd).length = xd.length)
    (hbadK : ∃ i, i < R.atoms.length ∧ ¬ (i < 5 ∧ repListTable.getD i 0 < R.atoms.length)) :
    mixFile resample R Nrho2 Nr2 drho2 dr2 = .error .indexError := by
  unfold mixFile
  apply mapM_err_of_bad
  · intro a _
    by_cases hg : a < 5 ∧ repListTable.getD a 0 < R.atoms.length
    · exact Or.inl ⟨_, mixSpecies_ok resample R Nrho2 Nr2 drho2 dr2 a hres hg.1 hg.2⟩
    · exact Or.inr (mixSpecies_err resample R Nrho2 Nr2 drho2 dr2 a hres hg)
  · obtain ⟨i, hiK, hbad⟩ := hbadK
    exact ⟨i, List.mem_range.mpr hiK,
      mixSpecies_err resample R Nrho2 Nr2 drho2 dr2 i hres hbad⟩

theorem mixFile_cases (resample : Resampler) (R : AlloyTables) (Nrho2 Nr2 : ℕ)
    (drho2 dr2 : ℚ)
    (hres : ∀ xs ys xd, (resample xs ys xd).length = xd.length) :
    (∃ v, mixFile resample R Nrho2 Nr2 drho2 dr2 = .ok v) ∨
      mixFile resample R Nrho2 Nr2 drho2 dr2 = .error .indexError := by
  unfold mixFile
  apply mapM_cases_ok_err
  intro a _
  by_cases hg : a < 5 ∧ repListTable.getD a 0 < R.atoms.length
  · exact Or.inl ⟨_, mixSpecies_ok resample R Nrho2 Nr2 drho2 dr2 a hres hg.1 hg.2⟩
  · exact Or.inr (mixSpecies_err resample R Nrho2 Nr2 drho2 dr2 a hres hg)

theorem gt5_has_bad_index (K : ℕ) (h : 5 < K) :
    ∃ i, i < K ∧ ¬ (i < 5 ∧ repListTable.getD i 0 < K) := by
  by_cases h9 : K ≤ 9
  · refine ⟨3, by omega, ?_⟩
    rw [show repListTable.getD 3 0 = 9 from rfl]
    omega
  · by_cases h14 : K ≤ 14
    · refine ⟨4, by omega, ?_⟩
      rw [show repListTable.getD 4 0 = 14 from rfl]
      omega
    · exact ⟨5, by omega, by omega⟩

/-! ### Claim C8 -/

/-- C8: mix_eam_alloy locates each species self pair function through the
fixed table rep_list = [0,2,5,9,14]; whenever some readable input file holds
more than 5 species (all inputs being readable and the resampler returning
grids of the requested length), the per-species loop runs into an
out-of-range access - past rep_list itself or past the first axis of the
pair array at the index rep_list supplies - and the whole operation fails
with IndexError instead of producing a merged potential. -/
theorem c8_overflow (resample : Resampler) (initR initF initf initRep : ℕ → ℕ → ℕ → ℚ)
    (files : List TextFile)
    (hres : ∀ xs ys xd, (resample xs ys xd).length = xd.length)
    (hall : ∀ g ∈ files, ∃ R, readEamAlloy initR g = .ok R)
    (hbad : ∃ g ∈ files, ∃ R, readEamAlloy initR g = .ok R ∧ 5 < R.atoms.length) :
    errOf (mixEamAlloy resample initR initF initf initRep files) = some PyErr.indexError := by
  obtain ⟨reads, hm⟩ := mapM_ok_of_forall (readEamAlloy initR) files hall
  obtain ⟨g, hgf, R, hgR, hK⟩ := hbad
  have hRmem : R ∈ reads := mapM_ok_mem (readEamAlloy initR) files reads hm g hgf R hgR
  obtain ⟨R0, rest, hreads⟩ : ∃ R0 rest, reads = R0 :: rest := by
    cases reads with
    | nil => simp at hRmem
    | cons a l => exact ⟨a, l, rfl⟩
  subst hreads
  unfold mixEamAlloy
  rw [hm]
  simp only [ebind_ok, List.map_cons, argminQ]
  have hfe : ∀ (A B : ℕ) (C D : ℚ),
      (R0 :: rest).mapM (fun Rx => mixFile resample Rx A B C D) = .error .indexError := by
    intro A B C D
    apply mapM_err_of_bad
    · intro a _
      rcases mixFile_cases resample a A B C D hres with ⟨v, hv⟩ | he
      · exact Or.inl ⟨v, hv⟩
      · exact Or.inr he
    · exact ⟨R, hRmem, mixFile_err resample R A B C D hres
        (gt5_has_bad_index R.atoms.length hK)⟩
  rw [hfe, ebind_err]
  rfl

/-- C8, witness: mixing the concrete six-species file fails with the
out-of-range IndexError. -/
theorem c8_overflow_witness :
    errOf (mixEamAlloy resampleGrid junk77 junk77 junk77 junk77 [fileSix]) =
      some PyErr.indexError := by
  have hlen : (readEamAlloy junk77 fileSix).toOption.map (fun r => r.atoms.length) =
      some 6 := by
    with_unfolding_all rfl
  have hex : ∃ R, readEamAlloy junk77 fileSix = .ok R ∧ 5 < R.atoms.length := by
    cases h : readEamAlloy junk77 fileSix with
    | error e => rw [h] at hlen; simp [Except.toOption] at hlen
    | ok R =>
        rw [h] at hlen
        simp [Except.toOption] at hlen
        exact ⟨R, rfl, by omega⟩
  exact c8_overflow resampleGrid junk77 junk77 junk77 junk77 [fileSix]
    (fun _ _ _ => rfl)
    (fun g hg => by
      have hgs : g = fileSix := by simpa using hg
      subst hgs
      obtain ⟨R, hR, _⟩ := hex
      exact ⟨R, hR⟩)
    ⟨fileSix, by simp, hex⟩

/-! ### Claim C3 -/

/-- C3, counterexample to the claim as stated: the two-species file is
readable, yet mix_eam_alloy on the non-empty list holding it produces no
merged header at all (the per-species loop dies with an out-of-range access
at rep_list[1] = 2 against the two-row pair array). -/
theorem c3_counterexample :
    (readEamAlloy junk77 fileTwo).toOption.map (fun r => r.atoms.length) = some 2 ∧
    mixHeader (mixEamAlloy resampleGrid junk77 junk77 junk77 junk77 [fileTwo]) = none := by
  constructor
  · with_unfolding_all rfl
  · with_unfolding_all rfl

/-- C3, amended: whenever mix_eam_alloy does return a merged potential, its
header carries exactly the (Nrho, drho) of an input minimizing Nrho*drho,
the (Nr, dr) of an input minimizing the cutoff, and that minimum cutoff. -/
theorem c3_grid_selection (resample : Resampler)
    (initR initF initf initRep : ℕ → ℕ → ℕ → ℚ)
    (files : List TextFile) (hdrs : List (ℕ × ℚ × ℕ × ℚ × ℚ))
    (nrho2 : ℕ) (drho2 : ℚ) (nr2 : ℕ) (dr2 cut2 : ℚ)
    (hreads : (files.mapM (readEamAlloy initR)).toOption.map
        (fun l => l.map (fun R => (R.Nrho, R.drho, R.Nr, R.dr, R.cutoff))) = some hdrs)
    (hok : mixHeader (mixEamAlloy resample initR initF initf initRep files)
        = some (nrho2, drho2, nr2, dr2, cut2)) :
    ∃ mp mc, mp < hdrs.length ∧ mc < hdrs.length ∧
      (∀ k, k < hdrs.length →
        ((hdrs.getD mp hdrDefault).1 : ℚ) * (hdrs.getD mp hdrDefault).2.1 ≤
          ((hdrs.getD k hdrDefault).1 : ℚ) * (hdrs.getD k hdrDefault).2.1) ∧
      (∀ k, k < hdrs.length →
        (hdrs.getD mc hdrDefault).2.2.2.2 ≤ (hdrs.getD k hdrDefault).2.2.2.2) ∧
      nrho2 = (hdrs.getD mp hdrDefault).1 ∧ drho2 = (hdrs.getD mp hdrDefault).2.1 ∧
      nr2 = (hdrs.getD mc hdrDefault).2.2.1 ∧ dr2 = (hdrs.getD mc hdrDefault).2.2.2.1 ∧
      cut2 = (hdrs.getD mc hdrDefault).2.2.2.2 := by
  cases hmres : files.mapM (readEamAlloy initR) with
  | error e =>
      rw [hmres] at hreads
      simp [Except.toOption] at hreads
  | ok reads =>
  rw [hmres] at hreads
  simp only [Except.toOption, Option.map] at hreads
  have hh : reads.map (fun R => (R.Nrho, R.drho, R.Nr, R.dr, R.cutoff)) = hdrs :=
    Option.some.inj hreads
  unfold mixEamAlloy at hok
  rw [hmres] at hok
  simp only [ebind_ok] at hok
  cases hmc : argminQ (reads.map (fun R => R.cutoff)) with
  | error e =>
      rw [hmc, ebind_err] at hok
      simp [mixHeader, Except.toOption] at hok
  | ok mc =>
  rw [hmc, ebind_ok] at hok
  cases hmp : argminQ (reads.map (fun R => (R.Nrho : ℚ) * R.drho)) with
  | error e =>
      rw [hmp, ebind_err] at hok
      simp [mixHeader, Except.toOption] at hok
  | ok mp =>
  rw [hmp, ebind_ok] at hok
  cases hdg : reads.mapM (fun Rx => mixFile resample Rx
      ((reads.map (fun R => R.Nrho)).getD mp 0)
      ((reads.map (fun R => R.Nr)).getD mc 0)
      ((reads.map (fun R => R.drho)).getD mp 0)
      ((reads.map (fun R => R.dr)).getD mc 0)) with
  | error e =>
      rw [hdg, ebind_err] at hok
      simp [mixHeader, Except.toOption] at hok
  | ok diags =>
  rw [hdg, ebind_ok] at hok
  simp only [mixHeader, Except.toOption, Option.map] at hok
  have hT := Option.some.inj hok
  obtain ⟨e1, e2, e3, e4, e5⟩ : (reads.map (fun R => R.Nrho)).getD mp 0 = nrho2 ∧
      (reads.map (fun R => R.drho)).getD mp 0 = drho2 ∧
      (reads.map (fun R => R.Nr)).getD mc 0 = nr2 ∧
      (reads.map (fun R => R.dr)).getD mc 0 = dr2 ∧
      (reads.map (fun R => R.cutoff)).getD mc 0 = cut2 := by
    have h2 := hT
    simp only [Prod.mk.injEq] at h2
    exact ⟨h2.1, h2.2.1, h2.2.2.1, h2.2.2.2.1, h2.2.2.2.2⟩
  have hspecC := argminQ_ok_spec _ mc hmc
  have hspecP := argminQ_ok_spec _ mp hmp
  have hlenC : (reads.map (fun R => R.cutoff)).length = reads.length := List.length_map _ _
  have hlenP : (reads.map (fun R => (R.Nrho : ℚ) * R.drho)).length = reads.length :=
    List.length_map _ _
  have hlenH : hdrs.length = reads.length := by rw [← hh]; exact List.length_map _ _
  have hmpl : mp < reads.length := by have := hspecP.1; omega
  have hmcl : mc < reads.length := by have := hspecC.1; omega
  have hget : ∀ k, k < reads.length →
      hdrs.getD k hdrDefault =
        ((reads.getD k defaultAlloy).Nrho, (reads.getD k defaultAlloy).drho,
         (reads.getD k defaultAlloy).Nr, (reads.getD k defaultAlloy).dr,
         (reads.getD k defaultAlloy).cutoff) := by
    intro k hk
    rw [← hh]
    exact getD_map_lt _ defaultAlloy hdrDefault reads k hk
  refine ⟨mp, mc, by omega, by omega, ?_, ?_, ?_, ?_, ?_, ?_, ?_⟩
  · intro k hk
    have hk2 : k < reads.length := by omega
    rw [hget mp hmpl, hget k hk2]
    have h1 := hspecP.2 k (by omega)
    rw [getD_map_lt _ defaultAlloy 0 reads mp hmpl,
        getD_map_lt _ defaultAlloy 0 reads k hk2] at h1
    exact h1
  · intro k hk
    have hk2 : k < reads.length := by omega
    rw [hget mc hmcl, hget k hk2]
    have h1 := hspecC.2 k (by omega)
    rw [getD_map_lt _ defaultAlloy 0 reads mc hmcl,
        getD_map_lt _ defaultAlloy 0 reads k hk2] at h1
    exact h1
  · rw [hget mp hmpl, ← e1, getD_map_lt _ defaultAlloy 0 reads mp hmpl]
  · rw [hget mp hmpl, ← e2, getD_map_lt _ defaultAlloy 0 reads mp hmpl]
  · rw [hget mc hmcl, ← e3, getD_map_lt _ defaultAlloy 0 reads mc hmcl]
  · rw [hget mc hmcl, ← e4, getD_map_lt _ defaultAlloy 0 reads mc hmcl]
  · rw [hget mc hmcl, ← e5, getD_map_lt _ defaultAlloy 0 reads mc hmcl]

/-- C3, witness: mixing the two concrete single-species grid files
(Nrho*drho = 1/50 versus 3/100, cutoff 5 versus 4) succeeds, and the merged
header carries the embedding grid of the first input (smaller product) and
the r grid and cutoff of the second (smaller cutoff). -/
theorem c3_grid_selection_witness :
    ∃ mp mc, mp < hdrsGrid.length ∧ mc < hdrsGrid.length ∧
      (∀ k, k < hdrsGrid.length →
        ((hdrsGrid.getD mp hdrDefault).1 : ℚ) * (hdrsGrid.getD mp hdrDefault).2.1 ≤
          ((hdrsGrid.getD k hdrDefault).1 : ℚ) * (hdrsGrid.getD k hdrDefault).2.1) ∧
      (∀ k, k < hdrsGrid.length →
        (hdrsGrid.getD mc hdrDefault).2.2.2.2 ≤ (hdrsGrid.getD k hdrDefault).2.2.2.2) ∧
      2 = (hdrsGrid.getD mp hdrDefault).1 ∧
      (1/100 : ℚ) = (hdrsGrid.getD mp hdrDefault).2.1 ∧
      2 = (hdrsGrid.getD mc hdrDefault).2.2.1 ∧
      (1/4 : ℚ) = (hdrsGrid.getD mc hdrDefault).2.2.2.1 ∧
      (4 : ℚ) = (hdrsGrid.getD mc hdrDefault).2.2.2.2 :=
  c3_grid_selection resampleGrid junk77 junk77 junk77 junk77 [fileGridA, fileGridB]
    hdrsGrid 2 (1/100) 2 (1/4) 4 (by with_unfolding_all rfl) (by with_unfolding_all rfl)

/-! ### List and stream lemmas for the write/read round trip -/

theorem getD_append_lt {α : Type} (xs ys : List α) (n : ℕ) (d : α) (h : n < xs.length) :
    (xs ++ ys).getD n d = xs.getD n d := by
  rw [List.getD_eq_getElem?_getD, List.getD_eq_getElem?_getD,
    List.getElem?_append_left h]

theorem getD_append_len {α : Type} (xs ys : List α) (n : ℕ) (d : α) :
    (xs ++ ys).getD (xs.length + n) d = ys.getD n d := by
  rw [List.getD_eq_getElem?_getD, List.getD_eq_getElem?_getD]
  congr 1
  rw [List.getElem?_append_right (by omega)]
  congr 1
  omega

theorem drop_append_len {α : Type} :
    ∀ (xs ys : List α) (n : ℕ), (xs ++ ys).drop (xs.length + n) = ys.drop n := by
  intro xs
  induction xs with
  | nil => intro ys n; simp
  | cons x xs ih =>
      intro ys n
      simp only [List.cons_append, List.length_cons]
      rw [show xs.length + 1 + n = (xs.length + n) + 1 by omega, List.drop_succ_cons]
      exact ih ys n

theorem drop_eq_getD_cons {α : Type} (d : α) :
    ∀ (xs : List α) (n : ℕ), n < xs.length → xs.drop n = xs.getD n d :: xs.drop (n + 1) := by
  intro xs
  induction xs with
  | nil => intro n hn; simp at hn
  | cons x xs ih =>
      intro n hn
      cases n with
      | zero => simp
      | succ n =>
          simp only [List.drop_succ_cons, List.getD_cons_succ]
          exact ih n (by simpa using hn)

theorem flatten_length_uniform {α : Type} (B : ℕ) :
    ∀ (bs : List (List α)), (∀ b ∈ bs, b.length = B) →
      bs.flatten.length = bs.length * B := by
  intro bs
  induction bs with
  | nil => intro _; simp
  | cons b bs ih =>
      intro hB
      simp only [List.flatten_cons, List.length_append, List.length_cons]
      rw [ih (fun x hx => hB x (by simp [hx])), hB b (by simp)]
      ring

theorem flatten_drop_uniform {α : Type} (B : ℕ) :
    ∀ (i : ℕ) (bs : List (List α)) (t : List α), (∀ b ∈ bs, b.length = B) →
      i ≤ bs.length → (bs.flatten ++ t).drop (i * B) = (bs.drop i).flatten ++ t := by
  intro i
  induction i with
  | zero => intro bs t _ _; simp
  | succ i ih =>
      intro bs t hB hle
      cases bs with
      | nil => simp at hle
      | cons b bs =>
          have hb : b.length = B := hB b (by simp)
          simp only [List.flatten_cons, List.drop_succ_cons]
          rw [List.append_assoc, show (i + 1) * B = b.length + i * B by rw [hb]; ring,
            drop_append_len]
          exact ih bs t (fun x hx => hB x (by simp [hx])) (by simpa using hle)

theorem getD_mem_of_lt {α : Type} (d : α) :
    ∀ (xs : List α) (n : ℕ), n < xs.length → xs.getD n d ∈ xs := by
  intro xs
  induction xs with
  | nil => intro n hn; simp at hn
  | cons x xs ih =>
      intro n hn
      cases n with
      | zero => simp
      | succ n =>
          simp only [List.getD_cons_succ, List.mem_cons]
          exact Or.inr (ih n (by simpa using hn))

theorem flatten_getD_line {α : Type} (B : ℕ) (bs : List (List α)) (t : List α)
    (i r : ℕ) (d : α) (hB : ∀ b ∈ bs, b.length = B) (hi : i < bs.length) (hr : r < B) :
    (bs.flatten ++ t).getD (i * B + r) d = (bs.getD i []).getD r d := by
  have h1 : (bs.flatten ++ t).getD (i * B + r) d =
      ((bs.flatten ++ t).drop (i * B)).getD r d := by
    rw [List.getD_eq_getElem?_getD, List.getD_eq_getElem?_getD, List.getElem?_drop]
  rw [h1, flatten_drop_uniform B i bs t hB (by omega),
    drop_eq_getD_cons [] bs i hi]
  simp only [List.flatten_cons]
  rw [List.append_assoc]
  exact getD_append_lt _ _ r d
    (by rw [hB (bs.getD i []) (getD_mem_of_lt [] bs i hi)]; exact hr)

theorem vLines_append (a b : List ℚ) : vLines (a ++ b) = vLines a ++ vLines b :=
  List.map_append _ a b

theorem normPos_cons_of_ne {l : Line} (rest : TextFile) (h : l ≠ []) :
    normPos (l :: rest) = l :: rest := by
  cases l with
  | nil => exact absurd rfl h
  | cons t ts => rfl

theorem normPos_vLines_cons (v : ℚ) (vs : List ℚ) (rest : TextFile) :
    normPos (vLines (v :: vs) ++ rest) = vLines (v :: vs) ++ rest := rfl

theorem fromfileN_vLines :
    ∀ (vs : List ℚ) (rest : TextFile),
      fromfileN vs.length (normPos (vLines vs ++ rest)) = (vs, normPos rest) := by
  intro vs
  induction vs with
  | nil => intro rest; rfl
  | cons v vs ih =>
      intro rest
      rw [normPos_vLines_cons]
      show fromfileN (vs.length + 1) ([Tok.num v] :: (vLines vs ++ rest)) = _
      rw [fromfileN]
      have h2 : normPos (([] : Line) :: (vLines vs ++ rest)) =
          normPos (vLines vs ++ rest) := rfl
      rw [h2, ih rest]

theorem tokenCount_vLines (vs : List ℚ) : tokenCount (vLines vs) = vs.length := by
  induction vs with
  | nil => rfl
  | cons v vs ih =>
      have h1 := ih
      show 1 + tokenCount (vLines vs) = vs.length + 1
      omega

theorem normPos_idem : ∀ (p : TextFile), normPos (normPos p) = normPos p := by
  intro p
  induction p with
  | nil => rfl
  | cons l rest ih =>
      cases l with
      | nil => simpa [normPos] using ih
      | cons t ts => rfl

theorem fromfileAll_norm (p : TextFile) : fromfileAll (normPos p) = fromfileAll p := by
  unfold fromfileAll
  rw [normPos_idem]

theorem fromfileAll_vLines (vs : List ℚ) : fromfileAll (vLines vs) = (vs, []) := by
  cases vs with
  | nil => rfl
  | cons v vs =>
      unfold fromfileAll
      have h1 : normPos (vLines (v :: vs)) = vLines (v :: vs) := by
        have := normPos_vLines_cons v vs []
        simpa using this
      rw [h1, tokenCount_vLines]
      have := fromfileN_vLines (v :: vs) []
      simpa [h1] using this

theorem dataLoop_blocks (cnt : ℕ) :
    ∀ (bs : List (Line × List ℚ)) (t : TextFile),
      (∀ b ∈ bs, (b.2).length = cnt) → (∀ b ∈ bs, b.1 ≠ []) → bs ≠ [] →
      dataLoop cnt bs.length ((bs.map (fun b => b.1 :: vLines b.2)).flatten ++ t)
        = ((bs.map (fun b => b.2)).flatten, normPos t) := by
  intro bs
  induction bs with
  | nil => intro t _ _ hne; exact absurd rfl hne
  | cons b bs ih =>
      intro t hcnt hhdr _
      simp only [List.map_cons, List.flatten_cons, List.length_cons, List.cons_append,
        List.append_assoc]
      rw [dataLoop]
      simp only [List.tail_cons]
      have hb2 : (b.2).length = cnt := hcnt b (by simp)
      have hff : fromfileN cnt
          (normPos (vLines b.2 ++ ((bs.map (fun b => b.1 :: vLines b.2)).flatten ++ t)))
          = (b.2, normPos ((bs.map (fun b => b.1 :: vLines b.2)).flatten ++ t)) := by
        rw [← hb2]
        exact fromfileN_vLines b.2 _
      rw [hff]
      cases hbs : bs with
      | nil =>
          subst hbs
          simp [dataLoop]
      | cons b2 bs2 =>
          subst hbs
          have hne2 : normPos (((b2 :: bs2).map (fun b => b.1 :: vLines b.2)).flatten ++ t)
              = ((b2 :: bs2).map (fun b => b.1 :: vLines b.2)).flatten ++ t := by
            simp only [List.map_cons, List.flatten_cons, List.cons_append]
            exact normPos_cons_of_ne _ (hhdr b2 (by simp))
          rw [hne2]
          rw [ih t (fun x hx => hcnt x (by simp [hx])) (fun x hx => hhdr x (by simp [hx]))
            (by simp)]

theorem triVals_eq_triFlat (rep : List (List (List ℚ))) :
    triVals rep = triFlat (fun i j => (rep.getD i []).getD j []) rep.length := rfl

theorem triFlat_map (g : ℕ → ℕ → List ℚ) (K : ℕ) (h : ℚ → ℚ) :
    (triFlat g K).map h = triFlat (fun i j => (g i j).map h) K := by
  unfold triFlat rowVals
  rw [List.map_flatten, List.map_map]
  congr 1
  refine List.map_congr_left ?_
  intro i _
  simp only [Function.comp]
  rw [List.map_flatten, List.map_map]
  rfl

theorem triFlat_succ (g : ℕ → ℕ → List ℚ) (K : ℕ) :
    triFlat g (K + 1) = triFlat g K ++ rowVals g K := by
  unfold triFlat
  rw [List.range_succ, List.map_append]
  simp

theorem triFlat_split (g : ℕ → ℕ → List ℚ) :
    ∀ (K i : ℕ), i < K → ∃ t2, triFlat g K = triFlat g (i + 1) ++ t2 := by
  intro K
  induction K with
  | zero => intro i hi; omega
  | succ K ih =>
      intro i hi
      rcases Nat.lt_succ_iff_lt_or_eq.mp hi with h2 | rfl
      · obtain ⟨t2, ht⟩ := ih i h2
        exact ⟨t2 ++ rowVals g K, by rw [triFlat_succ, ht, List.append_assoc]⟩
      · exact ⟨[], by rw [triFlat_succ]; simp⟩

theorem rowVals_length (g : ℕ → ℕ → List ℚ) (i Nr : ℕ)
    (h : ∀ j, j ≤ i → (g i j).length = Nr) :
    (rowVals g i).length = (i + 1) * Nr := by
  unfold rowVals
  rw [flatten_length_uniform Nr]
  · rw [List.length_map, List.length_range]
  · intro b hb
    obtain ⟨j, hj, rfl⟩ := List.mem_map.mp hb
    exact h j (by simpa [Nat.lt_succ_iff] using hj)

theorem triFlat_length (g : ℕ → ℕ → List ℚ) (K Nr : ℕ)
    (h : ∀ i j, i < K → j ≤ i → (g i j).length = Nr) :
    (triFlat g K).length = (K * (K + 1) / 2) * Nr := by
  induction K with
  | zero => simp [triFlat]
  | succ K ih =>
      rw [triFlat_succ, List.length_append,
        ih (fun i j hi hj => h i j (by omega) hj),
        rowVals_length g K Nr (fun j hj => h K j (by omega) hj),
        ← Nat.add_mul, show K * (K + 1) / 2 + (K + 1) = (K + 1) * (K + 1 + 1) / 2 by
          have h1 : (K + 1) * (K + 1 + 1) = K * (K + 1) + 2 * (K + 1) := by ring
          have h2 : K * (K + 1) % 2 = 0 := Nat.even_iff.mp (Nat.even_mul_succ_self K)
          omega]

theorem tri_slice (g : ℕ → ℕ → List ℚ) (K Nr : ℕ)
    (hlen : ∀ i j, i < K → j ≤ i → (g i j).length = Nr)
    (i j : ℕ) (hi : i < K) (hj : j ≤ i) :
    ((triFlat g K).drop ((i * (i + 1) / 2 + j) * Nr)).take Nr = g i j := by
  obtain ⟨t2, ht⟩ := triFlat_split g K i hi
  rw [ht, triFlat_succ, List.append_assoc]
  have hlenI : (triFlat g i).length = (i * (i + 1) / 2) * Nr :=
    triFlat_length g i Nr (fun a b ha hb => hlen a b (by omega) hb)
  rw [show (i * (i + 1) / 2 + j) * Nr = (triFlat g i).length + j * Nr by
      rw [hlenI]; ring,
    drop_append_len]
  unfold rowVals
  rw [flatten_drop_uniform Nr j ((List.range (i + 1)).map (g i)) t2
    (by
      intro b hb
      obtain ⟨jj, hjj, rfl⟩ := List.mem_map.mp hb
      exact hlen i jj hi (by simpa [Nat.lt_succ_iff] using hjj))
    (by rw [List.length_map, List.length_range]; omega)]
  rw [drop_eq_getD_cons [] _ j (by rw [List.length_map, List.length_range]; omega)]
  simp only [List.flatten_cons]
  have hgd : ((List.range (i + 1)).map (g i)).getD j [] = g i j := by
    rw [getD_map_lt (g i) 0 [] (List.range (i + 1)) j
      (by rw [List.length_range]; omega)]
    congr 1
    rw [List.getD_eq_getElem (List.range (i + 1)) 0 (by rw [List.length_range]; omega),
      List.getElem_range]
  rw [hgd, List.append_assoc, ← hlen i j hi hj, List.take_left]

theorem pyIndex_nat_ok {α : Type} (xs : List α) (k : ℕ) (d : α) (hk : k < xs.length) :
    pyIndex xs (k : ℤ) = .ok (xs.getD k d) := by
  simp only [pyIndex]
  rw [if_neg (show ¬ ((k : ℤ) < 0) by omega), if_pos (show (0 : ℤ) ≤ (k : ℤ) by omega),
    Int.toNat_natCast, List.getElem?_eq_getElem hk, List.getD_eq_getElem xs d hk]

theorem mapM_ok_map {α β : Type} (g : α → Except PyErr β) (fn : α → β) :
    ∀ (l : List α), (∀ a ∈ l, g a = .ok (fn a)) → l.mapM g = .ok (l.map fn) := by
  intro l
  induction l with
  | nil => intro _; rfl
  | cons x xs ih =>
      intro hok
      rw [List.mapM_cons g, hok x (by simp), ebind_ok,
        ih (fun a ha => hok a (by simp [ha])), ebind_ok]
      rfl

theorem speciesBlock_uniform (h : AlloyHeader) (F f : List (List ℚ))
    (hF : ∀ i2, i2 < h.atoms.length → (F.getD i2 []).length = h.Nrho)
    (hf : ∀ i2, i2 < h.atoms.length → (f.getD i2 []).length = h.Nr) :
    ∀ b ∈ (List.range h.atoms.length).map (speciesBlock h F f),
      b.length = 1 + h.Nrho + h.Nr := by
  intro b hb
  obtain ⟨i2, hi2, rfl⟩ := List.mem_map.mp hb
  have hi2' : i2 < h.atoms.length := List.mem_range.mp hi2
  simp only [speciesBlock, List.length_cons, List.length_append, vLines,
    List.length_map, hF i2 hi2', hf i2 hi2']
  omega

theorem speciesRow_write (source : List Tok) (h : AlloyHeader)
    (F f : List (List ℚ)) (rep : List (List (List ℚ))) (i : ℕ)
    (hK : 1 ≤ h.atoms.length) (hNrho : 1 ≤ h.Nrho) (hNr : 1 ≤ h.Nr)
    (hF : ∀ i2, i2 < h.atoms.length → (F.getD i2 []).length = h.Nrho)
    (hf : ∀ i2, i2 < h.atoms.length → (f.getD i2 []).length = h.Nr)
    (hi : i < h.atoms.length) :
    speciesRow (writeEamAlloy source h F f rep) (h.Nrho : ℤ) (h.Nr : ℤ) i
      = .ok (metaValOf h i) := by
  obtain ⟨v0, vs0, hF0⟩ : ∃ v0 vs0, (F.getD 0 []).map (fmtE 16) = v0 :: vs0 := by
    have hl := hF 0 (by omega)
    cases hcase : F.getD 0 [] with
    | nil => rw [hcase] at hl; simp at hl; omega
    | cons a l => exact ⟨fmtE 16 a, l.map (fmtE 16), by simp⟩
  obtain ⟨K2, hK2⟩ : ∃ K2, h.atoms.length = K2 + 1 := ⟨h.atoms.length - 1, by omega⟩
  have hblocks : (List.range h.atoms.length).map (speciesBlock h F f)
      = speciesBlock h F f 0
        :: ((List.range K2).map Nat.succ).map (speciesBlock h F f) := by
    rw [hK2, List.range_succ_eq_map, List.map_cons]
  have hshape : writeEamAlloy source h F f rep
      = bannerLine :: (Tok.sym 907 :: source) :: [Tok.sym 907]
        :: (Tok.num (h.atoms.length : ℚ) :: h.atoms) :: gridLine h
        :: hdrLine h 0 :: [Tok.num v0]
        :: (List.map (fun v => [Tok.num v]) vs0
            ++ (List.map (fun v => [Tok.num v]) (List.map (fmtE 16) (f.getD 0 []))
              ++ ((List.map (speciesBlock h F f) (List.map Nat.succ (List.range K2))).flatten
                ++ List.map (fun v => [Tok.num v]) (List.map (fmtE 16) (triVals rep))))) := by
    unfold writeEamAlloy
    rw [hblocks]
    simp only [speciesBlock, hF0, List.flatten_cons, vLines, List.map_cons,
      List.cons_append, List.append_assoc, List.nil_append]
  have h6 : pyIndex (writeEamAlloy source h F f rep) 6 = .ok [Tok.num v0] := by
    rw [hshape, show (6 : ℤ) = ((6 : ℕ) : ℤ) from rfl,
      pyIndex_nat_ok _ 6 [] (by simp [List.length_cons])]
    simp only [List.getD_cons_succ, List.getD_cons_zero]
  simp only [speciesRow, h6, ebind_ok]
  rw [if_neg (show ¬ ((([Tok.num v0] : Line)).length = 0) by simp)]
  have hrow : pyInt (5 + (i : ℚ) * ((((h.Nr : ℤ) : ℚ) + ((h.Nrho : ℤ) : ℚ))
        / ((([Tok.num v0] : Line)).length : ℚ) + 1))
      = ((5 + i * (1 + h.Nrho + h.Nr) : ℕ) : ℤ) := by
    have e1 : ((([Tok.num v0] : Line)).length : ℚ) = 1 := by norm_num
    rw [e1, div_one]
    unfold pyInt
    rw [if_neg (show ¬ (5 + (i : ℚ) * (((h.Nr : ℤ) : ℚ) + ((h.Nrho : ℤ) : ℚ) + 1) < 0) by
      rw [not_lt]; positivity)]
    rw [show (5 + (i : ℚ) * (((h.Nr : ℤ) : ℚ) + ((h.Nrho : ℤ) : ℚ) + 1))
        = ((5 + i * (1 + h.Nrho + h.Nr) : ℕ) : ℚ) by push_cast; ring,
      Int.floor_natCast]
  have hbU := speciesBlock_uniform h F f hF hf
  have hblen : ((List.range h.atoms.length).map (speciesBlock h F f)).length
      = h.atoms.length := by rw [List.length_map, List.length_range]
  have h5 : ([bannerLine, Tok.sym 907 :: source, [Tok.sym 907],
      Tok.num ((h.atoms.length : ℕ) : ℚ) :: h.atoms, gridLine h] : TextFile).length = 5 := rfl
  have hWlen : 5 + i * (1 + h.Nrho + h.Nr) < (writeEamAlloy source h F f rep).length := by
    unfold writeEamAlloy
    rw [List.length_append, List.length_append,
      flatten_length_uniform (1 + h.Nrho + h.Nr)
        ((List.range h.atoms.length).map (speciesBlock h F f)) hbU, hblen]
    have hmul : i * (1 + h.Nrho + h.Nr) < h.atoms.length * (1 + h.Nrho + h.Nr) :=
      mul_lt_mul_of_pos_right hi (by omega)
    omega
  have hrowline : pyIndex (writeEamAlloy source h F f rep)
      ((5 + i * (1 + h.Nrho + h.Nr) : ℕ) : ℤ) = .ok (hdrLine h i) := by
    rw [pyIndex_nat_ok _ _ [] hWlen]
    congr 1
    unfold writeEamAlloy
    rw [List.append_assoc]
    rw [show 5 + i * (1 + h.Nrho + h.Nr)
        = ([bannerLine, Tok.sym 907 :: source, [Tok.sym 907],
            Tok.num ((h.atoms.length : ℕ) : ℚ) :: h.atoms, gridLine h] : TextFile).length
          + (i * (1 + h.Nrho + h.Nr) + 0) from by rw [h5]; omega,
      getD_append_len,
      flatten_getD_line (1 + h.Nrho + h.Nr) _ _ i 0 [] hbU
        (by rw [hblen]; exact hi) (by omega)]
    rw [getD_map_lt (speciesBlock h F f) 0 [] (List.range h.atoms.length) i
        (by rw [List.length_range]; exact hi),
      List.getD_eq_getElem (List.range h.atoms.length) 0
        (by rw [List.length_range]; exact hi),
      List.getElem_range]
    simp [speciesBlock]
  rw [hrow, hrowline, ebind_ok]
  have ea : pyIndex (hdrLine h i) 0
      = .ok (Tok.num ((h.atnumber.getD i 0 : ℤ) : ℚ)) := by with_unfolding_all rfl
  have em : pyIndex (hdrLine h i) 1
      = .ok (Tok.num (fmtF 6 (h.atmass.getD i 0))) := by with_unfolding_all rfl
  have ec : pyIndex (hdrLine h i) 2
      = .ok (Tok.num (fmtF 6 (h.crystallatt.getD i 0))) := by with_unfolding_all rfl
  have ecr : pyIndex (hdrLine h i) 3
      = .ok (h.crystal.getD i (Tok.sym 0)) := by with_unfolding_all rfl
  rw [ea, ebind_ok, intOfTok_intCast, ebind_ok, em, ebind_ok]
  simp only [floatOfTok, ebind_ok]
  rw [ec, ebind_ok]
  simp only [floatOfTok, ebind_ok]
  rw [ecr, ebind_ok]
  rfl


theorem readEamAlloyCore_write (source : List Tok) (h : AlloyHeader)
    (F f : List (List ℚ)) (rep : List (List (List ℚ)))
    (hK : 1 ≤ h.atoms.length) (hNrho : 1 ≤ h.Nrho) (hNr : 1 ≤ h.Nr)
    (hF : ∀ i, i < h.atoms.length → (F.getD i []).length = h.Nrho)
    (hf : ∀ i, i < h.atoms.length → (f.getD i []).length = h.Nr)
    (hrepK : rep.length = h.atoms.length)
    (hrep : ∀ i j, i < h.atoms.length → j ≤ i →
      ((rep.getD i []).getD j []).length = h.Nr) :
    readEamAlloyCore (writeEamAlloy source h F f rep)
      = .ok { src0 := bannerLine, src1 := Tok.sym 907 :: source, src2 := [Tok.sym 907],
              atoms := h.atoms,
              atnumber := ((List.range h.atoms.length).map (metaValOf h)).map
                (fun x => x.1),
              atmass := ((List.range h.atoms.length).map (metaValOf h)).map
                (fun x => x.2.1),
              crystallatt := ((List.range h.atoms.length).map (metaValOf h)).map
                (fun x => x.2.2.1),
              crystal := ((List.range h.atoms.length).map (metaValOf h)).map
                (fun x => x.2.2.2),
              Nrho := h.Nrho, Nr := h.Nr,
              drho := fmtE 6 h.drho, dr := fmtE 6 h.dr, cutoff := fmtE 6 h.cutoff,
              data := dataFlatOf h F f ++ (triVals rep).map (fmtE 16) } := by
  have h5 : ([bannerLine, Tok.sym 907 :: source, [Tok.sym 907],
      Tok.num ((h.atoms.length : ℕ) : ℚ) :: h.atoms, gridLine h] : TextFile).length = 5 := rfl
  have hbU := speciesBlock_uniform h F f hF hf
  have hblen : ((List.range h.atoms.length).map (speciesBlock h F f)).length
      = h.atoms.length := by rw [List.length_map, List.length_range]
  have hW5 : 5 ≤ (writeEamAlloy source h F f rep).length := by
    unfold writeEamAlloy
    rw [List.length_append, List.length_append]
    omega
  have eg : ∀ (k : ℕ), k < 5 → (writeEamAlloy source h F f rep).getD k []
      = ([bannerLine, Tok.sym 907 :: source, [Tok.sym 907],
          Tok.num ((h.atoms.length : ℕ) : ℚ) :: h.atoms, gridLine h] : TextFile).getD k [] := by
    intro k hk
    unfold writeEamAlloy
    rw [List.append_assoc, getD_append_lt _ _ k [] (by rw [h5]; omega)]
  have e0 : pyIndex (writeEamAlloy source h F f rep) 0 = .ok bannerLine := by
    rw [show (0 : ℤ) = ((0 : ℕ) : ℤ) from rfl, pyIndex_nat_ok _ _ [] (by omega),
      eg 0 (by omega)]
    simp
  have e1 : pyIndex (writeEamAlloy source h F f rep) 1 = .ok (Tok.sym 907 :: source) := by
    rw [show (1 : ℤ) = ((1 : ℕ) : ℤ) from rfl, pyIndex_nat_ok _ _ [] (by omega),
      eg 1 (by omega)]
    simp
  have e2 : pyIndex (writeEamAlloy source h F f rep) 2 = .ok [Tok.sym 907] := by
    rw [show (2 : ℤ) = ((2 : ℕ) : ℤ) from rfl, pyIndex_nat_ok _ _ [] (by omega),
      eg 2 (by omega)]
    simp
  have e3 : pyIndex (writeEamAlloy source h F f rep) 3
      = .ok (Tok.num ((h.atoms.length : ℕ) : ℚ) :: h.atoms) := by
    rw [show (3 : ℤ) = ((3 : ℕ) : ℤ) from rfl, pyIndex_nat_ok _ _ [] (by omega),
      eg 3 (by omega)]
    simp
  have e4 : pyIndex (writeEamAlloy source h F f rep) 4 = .ok (gridLine h) := by
    rw [show (4 : ℤ) = ((4 : ℕ) : ℤ) from rfl, pyIndex_nat_ok _ _ [] (by omega),
      eg 4 (by omega)]
    simp
  have g0 : pyIndex (gridLine h) 0 = .ok (Tok.num ((h.Nrho : ℕ) : ℚ)) := by
    with_unfolding_all rfl
  have g1 : pyIndex (gridLine h) 1 = .ok (Tok.num (fmtE 6 h.drho)) := by
    with_unfolding_all rfl
  have g2 : pyIndex (gridLine h) 2 = .ok (Tok.num ((h.Nr : ℕ) : ℚ)) := by
    with_unfolding_all rfl
  have g3 : pyIndex (gridLine h) 3 = .ok (Tok.num (fmtE 6 h.dr)) := by
    with_unfolding_all rfl
  have g4 : pyIndex (gridLine h) 4 = .ok (Tok.num (fmtE 6 h.cutoff)) := by
    with_unfolding_all rfl
  have hmeta : (List.range h.atoms.length).mapM
      (speciesRow (writeEamAlloy source h F f rep) ((h.Nrho : ℕ) : ℤ) ((h.Nr : ℕ) : ℤ))
      = .ok ((List.range h.atoms.length).map (metaValOf h)) :=
    mapM_ok_map _ _ _ (fun a ha =>
      speciesRow_write source h F f rep a hK hNrho hNr hF hf (List.mem_range.mp ha))
  have hdrop5 : (writeEamAlloy source h F f rep).drop 5
      = ((List.range h.atoms.length).map (speciesBlock h F f)).flatten
        ++ vLines ((triVals rep).map (fmtE 16)) := by
    unfold writeEamAlloy
    rw [List.append_assoc,
      show (5 : ℕ) = ([bannerLine, Tok.sym 907 :: source, [Tok.sym 907],
          Tok.num ((h.atoms.length : ℕ) : ℚ) :: h.atoms, gridLine h] : TextFile).length + 0
        from rfl,
      drop_append_len, List.drop_zero]
  have hbsflat : (List.range h.atoms.length).map (speciesBlock h F f)
      = ((List.range h.atoms.length).map (fun i =>
          (hdrLine h i, (F.getD i []).map (fmtE 16) ++ (f.getD i []).map (fmtE 16)))).map
        (fun b => b.1 :: vLines b.2) := by
    rw [List.map_map]
    refine List.map_congr_left ?_
    intro i2 _
    simp only [Function.comp, speciesBlock, vLines_append]
  have hbslen : ((List.range h.atoms.length).map (fun i =>
      (hdrLine h i, (F.getD i []).map (fmtE 16) ++ (f.getD i []).map (fmtE 16)))).length
      = h.atoms.length := by rw [List.length_map, List.length_range]
  have hdl : dataLoop (h.Nrho + h.Nr) h.atoms.length
      (((List.range h.atoms.length).map (speciesBlock h F f)).flatten
        ++ vLines ((triVals rep).map (fmtE 16)))
      = (dataFlatOf h F f, normPos (vLines ((triVals rep).map (fmtE 16)))) := by
    rw [hbsflat]
    have hdlb := dataLoop_blocks (h.Nrho + h.Nr)
      ((List.range h.atoms.length).map (fun i =>
        (hdrLine h i, (F.getD i []).map (fmtE 16) ++ (f.getD i []).map (fmtE 16))))
      (vLines ((triVals rep).map (fmtE 16)))
      (by
        intro b hb
        obtain ⟨i2, hi2, rfl⟩ := List.mem_map.mp hb
        have hi2' : i2 < h.atoms.length := List.mem_range.mp hi2
        simp only [List.length_append, List.length_map, hF i2 hi2', hf i2 hi2'])
      (by
        intro b hb
        obtain ⟨i2, hi2, rfl⟩ := List.mem_map.mp hb
        simp [hdrLine])
      (List.length_pos.mp (by rw [hbslen]; omega))
    rw [hbslen] at hdlb
    rw [hdlb, List.map_map]
    refine Prod.ext ?_ rfl
    show ((List.range h.atoms.length).map _).flatten = dataFlatOf h F f
    rfl
  have hdfl : (dataFlatOf h F f).length = h.atoms.length * (h.Nrho + h.Nr) := by
    unfold dataFlatOf
    rw [flatten_length_uniform (h.Nrho + h.Nr) _
      (by
        intro b hb
        obtain ⟨i2, hi2, rfl⟩ := List.mem_map.mp hb
        have hi2' : i2 < h.atoms.length := List.mem_range.mp hi2
        simp only [List.length_append, List.length_map, hF i2 hi2', hf i2 hi2']),
      List.length_map, List.length_range]
  have htril : ((triVals rep).map (fmtE 16)).length
      = (h.atoms.length * (h.atoms.length + 1) / 2) * h.Nr := by
    rw [List.length_map, triVals_eq_triFlat, hrepK,
      triFlat_length _ _ h.Nr (fun i j hi hj => hrep i j hi hj)]
  simp only [readEamAlloyCore, e0, ebind_ok, e1, e2, e3, e4,
    List.drop_succ_cons, List.drop_zero, g0, g2, intOfTok_natCast,
    g1, g3, g4, floatOfTok]
  rw [hmeta, ebind_ok,
    if_neg (show ¬ (((h.Nrho : ℕ) : ℤ) < 0 ∨ ((h.Nr : ℕ) : ℤ) < 0) by omega)]
  simp only [pure_bind, Int.toNat_natCast]
  rw [hdrop5, hdl]
  simp only [fromfileAll_norm, fromfileAll_vLines]
  rw [if_neg (show ¬ ((dataFlatOf h F f ++ (triVals rep).map (fmtE 16)).length <
      h.atoms.length * (h.Nrho + h.Nr) + h.atoms.length * (h.atoms.length + 1) / 2 * h.Nr) by
    rw [List.length_append, hdfl, htril]; omega)]

theorem dataFlatOf_length (h : AlloyHeader) (F f : List (List ℚ))
    (hF : ∀ i, i < h.atoms.length → (F.getD i []).length = h.Nrho)
    (hf : ∀ i, i < h.atoms.length → (f.getD i []).length = h.Nr) :
    (dataFlatOf h F f).length = h.atoms.length * (h.Nrho + h.Nr) := by
  unfold dataFlatOf
  rw [flatten_length_uniform (h.Nrho + h.Nr) _
    (by
      intro b hb
      obtain ⟨i2, hi2, rfl⟩ := List.mem_map.mp hb
      have hi2' : i2 < h.atoms.length := List.mem_range.mp hi2
      simp only [List.length_append, List.length_map, hF i2 hi2', hf i2 hi2']),
    List.length_map, List.length_range]

theorem dataRow_split (h : AlloyHeader) (F f : List (List ℚ)) (t2 : List ℚ) (i : ℕ)
    (hF : ∀ i2, i2 < h.atoms.length → (F.getD i2 []).length = h.Nrho)
    (hf : ∀ i2, i2 < h.atoms.length → (f.getD i2 []).length = h.Nr)
    (hi : i < h.atoms.length) :
    ∃ t3, (dataFlatOf h F f ++ t2).drop (i * (h.Nrho + h.Nr))
      = (F.getD i []).map (fmtE 16) ++ ((f.getD i []).map (fmtE 16) ++ t3) := by
  unfold dataFlatOf
  rw [flatten_drop_uniform (h.Nrho + h.Nr) i _ t2
    (by
      intro b hb
      obtain ⟨i2, hi2, rfl⟩ := List.mem_map.mp hb
      have hi2' : i2 < h.atoms.length := List.mem_range.mp hi2
      simp only [List.length_append, List.length_map, hF i2 hi2', hf i2 hi2'])
    (by rw [List.length_map, List.length_range]; omega)]
  rw [drop_eq_getD_cons [] _ i (by rw [List.length_map, List.length_range]; omega)]
  simp only [List.flatten_cons]
  rw [getD_map_lt _ 0 [] (List.range h.atoms.length) i (by rw [List.length_range]; omega),
    List.getD_eq_getElem (List.range h.atoms.length) 0 (by rw [List.length_range]; omega),
    List.getElem_range]
  refine ⟨(((List.range h.atoms.length).map
      (fun i2 => (F.getD i2 []).map (fmtE 16) ++ (f.getD i2 []).map (fmtE 16))).drop
        (i + 1)).flatten ++ t2, ?_⟩
  simp [List.append_assoc]

theorem dataF_slice (h : AlloyHeader) (F f : List (List ℚ)) (t2 : List ℚ) (i : ℕ)
    (hF : ∀ i2, i2 < h.atoms.length → (F.getD i2 []).length = h.Nrho)
    (hf : ∀ i2, i2 < h.atoms.length → (f.getD i2 []).length = h.Nr)
    (hi : i < h.atoms.length) :
    ((dataFlatOf h F f ++ t2).drop (i * (h.Nrho + h.Nr))).take h.Nrho
      = (F.getD i []).map (fmtE 16) := by
  obtain ⟨t3, ht⟩ := dataRow_split h F f t2 i hF hf hi
  have hFlen : ((F.getD i []).map (fmtE 16)).length = h.Nrho := by
    rw [List.length_map, hF i hi]
  rw [ht, ← hFlen, List.take_left]

theorem dataf_slice (h : AlloyHeader) (F f : List (List ℚ)) (t2 : List ℚ) (i : ℕ)
    (hF : ∀ i2, i2 < h.atoms.length → (F.getD i2 []).length = h.Nrho)
    (hf : ∀ i2, i2 < h.atoms.length → (f.getD i2 []).length = h.Nr)
    (hi : i < h.atoms.length) :
    ((dataFlatOf h F f ++ t2).drop (h.Nrho + i * (h.Nrho + h.Nr))).take h.Nr
      = (f.getD i []).map (fmtE 16) := by
  obtain ⟨t3, ht⟩ := dataRow_split h F f t2 i hF hf hi
  have hFlen : ((F.getD i []).map (fmtE 16)).length = h.Nrho := by
    rw [List.length_map, hF i hi]
  have hflen : ((f.getD i []).map (fmtE 16)).length = h.Nr := by
    rw [List.length_map, hf i hi]
  rw [show h.Nrho + i * (h.Nrho + h.Nr) = i * (h.Nrho + h.Nr) + h.Nrho by omega,
    ← List.drop_drop, ht,
    show h.Nrho = ((F.getD i []).map (fmtE 16)).length + 0 by rw [hFlen]; omega,
    drop_append_len, List.drop_zero, ← hflen, List.take_left]

theorem dataRep_slice (h : AlloyHeader) (F f : List (List ℚ))
    (rep : List (List (List ℚ))) (i j : ℕ)
    (hF : ∀ i2, i2 < h.atoms.length → (F.getD i2 []).length = h.Nrho)
    (hf : ∀ i2, i2 < h.atoms.length → (f.getD i2 []).length = h.Nr)
    (hrepK : rep.length = h.atoms.length)
    (hrep : ∀ i2 j2, i2 < h.atoms.length → j2 ≤ i2 →
      ((rep.getD i2 []).getD j2 []).length = h.Nr)
    (hi : i < h.atoms.length) (hj : j ≤ i) :
    ((dataFlatOf h F f ++ (triVals rep).map (fmtE 16)).drop
        (h.atoms.length * (h.Nrho + h.Nr) + (i * (i + 1) / 2 + j) * h.Nr)).take h.Nr
      = ((rep.getD i []).getD j []).map (fmtE 16) := by
  rw [show h.atoms.length * (h.Nrho + h.Nr) + (i * (i + 1) / 2 + j) * h.Nr
      = (dataFlatOf h F f).length + (i * (i + 1) / 2 + j) * h.Nr by
    rw [dataFlatOf_length h F f hF hf], drop_append_len]
  have htri : (triVals rep).map (fmtE 16)
      = triFlat (fun a b => ((rep.getD a []).getD b []).map (fmtE 16)) h.atoms.length := by
    rw [triVals_eq_triFlat, hrepK, triFlat_map]
  rw [htri, tri_slice _ h.atoms.length h.Nr
    (fun a b ha hb => by rw [List.length_map, hrep a b ha hb]) i j hi hj]

/-- C1, amended: writing a well-formed potential (at least one species,
positive table sizes, rows of the declared lengths) with write_eam_alloy and
reading the file back with read_eam_alloy succeeds and reproduces the species
token list exactly, the table sizes Nrho and Nr exactly, the grid spacings
drho and dr and the cutoff only to the seven significant digits of the
writer's plain %e grid format, and every stored table value (embedding rows,
density rows, and the lower pair triangle including the diagonal) to the
seventeen significant digits of the writer's %.16e format. -/
theorem c1_roundtrip (init : ℕ → ℕ → ℕ → ℚ) (source : List Tok) (h : AlloyHeader)
    (F f : List (List ℚ)) (rep : List (List (List ℚ)))
    (hK : 1 ≤ h.atoms.length) (hNrho : 1 ≤ h.Nrho) (hNr : 1 ≤ h.Nr)
    (hF : ∀ i, i < h.atoms.length → (F.getD i []).length = h.Nrho)
    (hf : ∀ i, i < h.atoms.length → (f.getD i []).length = h.Nr)
    (hrepK : rep.length = h.atoms.length)
    (hrep : ∀ i j, i < h.atoms.length → j ≤ i →
      ((rep.getD i []).getD j []).length = h.Nr) :
    ∃ r, readEamAlloy init (writeEamAlloy source h F f rep) = .ok r
      ∧ r.atoms = h.atoms ∧ r.Nrho = h.Nrho ∧ r.Nr = h.Nr
      ∧ r.drho = fmtE 6 h.drho ∧ r.dr = fmtE 6 h.dr ∧ r.cutoff = fmtE 6 h.cutoff
      ∧ (∀ i, i < h.atoms.length → r.F.getD i [] = (F.getD i []).map (fmtE 16))
      ∧ (∀ i, i < h.atoms.length → r.f.getD i [] = (f.getD i []).map (fmtE 16))
      ∧ (∀ i j, i < h.atoms.length → j ≤ i →
          r.rep i j = ((rep.getD i []).getD j []).map (fmtE 16)) := by
  have hcore := readEamAlloyCore_write source h F f rep hK hNrho hNr hF hf hrepK hrep
  refine ⟨assembleAlloy init
    { src0 := bannerLine, src1 := Tok.sym 907 :: source, src2 := [Tok.sym 907],
      atoms := h.atoms,
      atnumber := ((List.range h.atoms.length).map (metaValOf h)).map (fun x => x.1),
      atmass := ((List.range h.atoms.length).map (metaValOf h)).map (fun x => x.2.1),
      crystallatt := ((List.range h.atoms.length).map (metaValOf h)).map
        (fun x => x.2.2.1),
      crystal := ((List.range h.atoms.length).map (metaValOf h)).map (fun x => x.2.2.2),
      Nrho := h.Nrho, Nr := h.Nr,
      drho := fmtE 6 h.drho, dr := fmtE 6 h.dr, cutoff := fmtE 6 h.cutoff,
      data := dataFlatOf h F f ++ (triVals rep).map (fmtE 16) },
    ?_, rfl, rfl, rfl, rfl, rfl, rfl, ?_, ?_, ?_⟩
  · rw [readEamAlloy, hcore]
    rfl
  · intro i hi
    simp only [assembleAlloy]
    rw [getD_map_lt _ 0 [] (List.range h.atoms.length) i
        (by rw [List.length_range]; exact hi),
      List.getD_eq_getElem (List.range h.atoms.length) 0
        (by rw [List.length_range]; exact hi),
      List.getElem_range]
    exact dataF_slice h F f _ i hF hf hi
  · intro i hi
    simp only [assembleAlloy]
    rw [getD_map_lt _ 0 [] (List.range h.atoms.length) i
        (by rw [List.length_range]; exact hi),
      List.getD_eq_getElem (List.range h.atoms.length) 0
        (by rw [List.length_range]; exact hi),
      List.getElem_range]
    exact dataf_slice h F f _ i hF hf hi
  · intro i j hi hj
    simp only [assembleAlloy]
    rw [if_pos (⟨hi, hj⟩ : i < h.atoms.length ∧ j ≤ i)]
    exact dataRep_slice h F f rep i j hF hf hrepK hrep hi hj

/-- C1, counterexample to the original claim: a drho of 0.123456789 (nine
significant digits, well within sixteen) is written through the grid line's
plain %e format and is read back as 0.1234568 = 154321/1250000, not as the
original value, so the grid parameters are not reproduced at the writer's
16-significant-digit table precision. -/
theorem c1_counterexample :
    drhoAt (readEamAlloy junk77 (writeEamAlloy [] hdrPrec [[2]] [[3]] [[[4]]]))
        = some (154321/1250000 : ℚ)
      ∧ ¬ ((154321/1250000 : ℚ) = hdrPrec.drho) :=
  ⟨by with_unfolding_all rfl, by norm_num [hdrPrec]⟩

/-- C1, witness: the amended round-trip theorem applied to a concrete
two-species potential with unit table sizes. -/
theorem c1_roundtrip_witness :
    1 ≤ hdrRound.atoms.length ∧ 1 ≤ hdrRound.Nrho ∧ 1 ≤ hdrRound.Nr ∧
    (∃ r, readEamAlloy junk77 (writeEamAlloy [] hdrRound fwF fwf fwRep) = .ok r
      ∧ r.atoms = hdrRound.atoms ∧ r.Nrho = hdrRound.Nrho ∧ r.Nr = hdrRound.Nr
      ∧ r.drho = fmtE 6 hdrRound.drho ∧ r.dr = fmtE 6 hdrRound.dr
      ∧ r.cutoff = fmtE 6 hdrRound.cutoff
      ∧ (∀ i, i < hdrRound.atoms.length → r.F.getD i [] = (fwF.getD i []).map (fmtE 16))
      ∧ (∀ i, i < hdrRound.atoms.length → r.f.getD i [] = (fwf.getD i []).map (fmtE 16))
      ∧ (∀ i j, i < hdrRound.atoms.length → j ≤ i →
          r.rep i j = ((fwRep.getD i []).getD j []).map (fmtE 16))) :=
  ⟨by decide, by decide, by decide,
    c1_roundtrip junk77 [] hdrRound fwF fwf fwRep (by decide) (by decide) (by decide)
      (fun i hi => by
        have hi2 : i < 2 := hi
        interval_cases i <;> rfl)
      (fun i hi => by
        have hi2 : i < 2 := hi
        interval_cases i <;> rfl)
      (by decide)
      (fun i j hi hj => by
        have hi2 : i < 2 := hi
        interval_cases i <;> (interval_cases j <;> rfl))⟩
